import Mathlib

/-!
Verification development for the CloudMonitor repository.

Shallow embedding of the core components the specification talks about:
`core/models.py` (MonitorResult and its derived overall_status),
`core/event_bus.py` (EventBus), `core/security.py` (SecurityManager with
chunked credential storage over a keyring vault), `core/cache_mgr.py`
(CacheManager), `core/plugin_mgr.py` (PluginManager lifecycle and
refresh_all) and `ui/dashboard.py` (the refresh orchestration guard and
per-monitor refresh/caching).

Python strings are modelled as Lean `String` (both are sequences of
unicode scalar values); Python `bytes` as `List UInt8`; the keyring vault
and the SQLite tables as association lists; Python `dict` as an
association list in insertion order.
-/

namespace CloudMonitor

/-! ## core/models.py -/

/-- The `Literal["normal", "warning", "error"]` status type of `MetricData.status`. -/
inductive Status where
  | normal
  | warning
  | error
deriving DecidableEq, Repr

/-- The `Literal["up", "down", "flat"]` trend type. -/
inductive Trend where
  | up
  | down
  | flat
deriving DecidableEq, Repr

/-- `MetricData` from `core/models.py`. -/
structure MetricData where
  label : String
  value : String
  unit : Option String := none
  status : Status := .normal
  trend : Option Trend := none
deriving DecidableEq, Repr

/-- `MonitorResult` from `core/models.py`.  `last_updated` (a `datetime`)
is modelled as an abstract instant (`Option Nat`). -/
structure MonitorResult where
  plugin_id : String
  provider_name : String
  metrics : List MetricData := []
  raw_error : Option String := none
  last_updated : Option Nat := none
deriving DecidableEq, Repr

/-- `MonitorResult.has_error`: `self.raw_error is not None`. -/
def MonitorResult.has_error (r : MonitorResult) : Bool :=
  r.raw_error.isSome

/-- The `status_priority` dict of `MonitorResult.overall_status`:
`{"error": 2, "warning": 1, "normal": 0}`. -/
def statusPriority : Status → Nat
  | .error => 2
  | .warning => 1
  | .normal => 0

/-- `MonitorResult.overall_status` from `core/models.py`: `error` when
`has_error`; otherwise a loop over `metrics` starting from `"normal"`,
replacing the running status whenever the metric's priority is strictly
greater. -/
def MonitorResult.overall_status (r : MonitorResult) : Status :=
  if r.has_error then .error
  else
    r.metrics.foldl
      (fun maxStatus m =>
        if statusPriority m.status > statusPriority maxStatus then m.status
        else maxStatus)
      .normal

/-- Spec-side severity maximum for two statuses under the order
normal < warning < error (used to state the `overall_status` derivation
independently of the source's loop). -/
def statusMax (a b : Status) : Status :=
  if statusPriority a ≥ statusPriority b then a else b

/-- Spec-side maximum severity across a list of metrics, `normal` when empty. -/
def maxSeverity (ms : List MetricData) : Status :=
  ms.foldr (fun m acc => statusMax m.status acc) .normal

/-! ## core/event_bus.py -/

/-- `EventType` from `core/event_bus.py`. -/
inductive EventType where
  | refresh_started
  | refresh_completed
  | refresh_failed
  | service_added
  | service_removed
  | service_updated
  | cache_updated
  | cache_cleared
  | settings_changed
deriving DecidableEq, Repr

/-- Callbacks are identified abstractly (Python compares them with
`in` / `remove`, i.e. by equality). -/
abbrev Callback := Nat

/-- The `_subscribers : dict[EventType, list[Callback]]` field of `EventBus`. -/
abbrev Subscribers := List (EventType × List Callback)

/-- Dict lookup `self._subscribers.get(event_type, [])`. -/
def Subscribers.get (s : Subscribers) (et : EventType) : List Callback :=
  match s.find? (fun p => p.1 = et) with
  | some p => p.2
  | none => []

/-- Membership test `event_type in self._subscribers`. -/
def Subscribers.contains (s : Subscribers) (et : EventType) : Bool :=
  (s.find? (fun p => p.1 = et)).isSome

/-- In-place update of the list bound to `event_type` (Python mutates the
dict entry's list; modelled as rebuilding the association list). -/
def Subscribers.setList (s : Subscribers) (et : EventType) (l : List Callback) :
    Subscribers :=
  s.map (fun p => if p.1 = et then (p.1, l) else p)

/-- `EventBus.subscribe`: create an empty list for the event type when
missing, then append the callback only when it is not already present. -/
def Subscribers.subscribe (s : Subscribers) (et : EventType) (cb : Callback) :
    Subscribers :=
  let s1 := if s.contains et then s else s ++ [(et, [])]
  if cb ∈ s1.get et then s1
  else s1.setList et (s1.get et ++ [cb])

/-- `EventBus.subscriber_count`: `len(self._subscribers.get(event_type, []))`. -/
def Subscribers.subscriberCount (s : Subscribers) (et : EventType) : Nat :=
  (s.get et).length

/-- `EventBus.publish` invokes every callback of the event's type in list
order (each exception being swallowed); the observable invocation
sequence is therefore exactly the subscriber list. -/
def Subscribers.publishCalls (s : Subscribers) (et : EventType) : List Callback :=
  s.get et

/-! ## core/security.py

The keyring vault is an association list from key to stored secret
(`keyring.set_password` overwrites, `get_password` returns `None` when
missing, `delete_password` removes; deleting a missing key raises a
`KeyringError`, which every call site of interest catches, so it is
modelled as a no-op delete).  The embedding models a healthy platform
vault: `KeyringError` never fires, so the only exception that can cross
the component boundary is the `ValueError` of `int(chunks_count)`,
modelled by `Except PyErr`. -/

/-- The only Python exception reachable across the `SecurityManager`
boundary in the healthy-vault model: `ValueError` from `int(...)`. -/
inductive PyErr where
  | valueError
deriving DecidableEq, Repr

abbrev Vault := List (String × String)

/-- `keyring.get_password` (fixed service namespace). -/
def Vault.get (v : Vault) (k : String) : Option String :=
  (v.find? fun p => p.1 = k).map (·.2)

/-- `keyring.set_password`: overwrite any previous value under `k`. -/
def Vault.set (v : Vault) (k val : String) : Vault :=
  (k, val) :: v.filter fun p => ¬ p.1 = k

/-- `keyring.delete_password` (with its `KeyringError` on a missing key
caught by the caller, hence a plain removal). -/
def Vault.del (v : Vault) (k : String) : Vault :=
  v.filter fun p => ¬ p.1 = k

/-- UTF-8 encoding of one unicode scalar value (`str.encode("utf-8")`,
per character). -/
def encodeChar (c : Char) : List UInt8 :=
  let n := c.toNat
  if n < 0x80 then [UInt8.ofNat n]
  else if n < 0x800 then
    [UInt8.ofNat (0xC0 + n / 64), UInt8.ofNat (0x80 + n % 64)]
  else if n < 0x10000 then
    [UInt8.ofNat (0xE0 + n / 4096), UInt8.ofNat (0x80 + n / 64 % 64),
     UInt8.ofNat (0x80 + n % 64)]
  else
    [UInt8.ofNat (0xF0 + n / 262144), UInt8.ofNat (0x80 + n / 4096 % 64),
     UInt8.ofNat (0x80 + n / 64 % 64), UInt8.ofNat (0x80 + n % 64)]

/-- `value.encode("utf-8")`. -/
def utf8Encode (s : String) : List UInt8 :=
  (s.data.map encodeChar).flatten

/-- `len(value.encode("utf-8"))`. -/
def byteLen (s : String) : Nat :=
  (utf8Encode s).length

/-- U+FFFD, the replacement character used by `errors="replace"`. -/
def replChar : Char := Char.ofNat 0xFFFD

/-- Whether a byte is a UTF-8 continuation byte (`0x80..0xBF`). -/
def contByte (b : UInt8) : Bool := 0x80 ≤ b ∧ b ≤ 0xBF

/-- Valid second byte after a three-byte lead (excludes overlong forms
after `0xE0` and surrogates after `0xED`). -/
def validSecond3 (b c : UInt8) : Bool :=
  if b = 0xE0 then 0xA0 ≤ c ∧ c ≤ 0xBF
  else if b = 0xED then 0x80 ≤ c ∧ c ≤ 0x9F
  else contByte c

/-- Valid second byte after a four-byte lead (excludes overlong forms
after `0xF0` and values beyond U+10FFFF after `0xF4`). -/
def validSecond4 (b c : UInt8) : Bool :=
  if b = 0xF0 then 0x90 ≤ c ∧ c ≤ 0xBF
  else if b = 0xF4 then 0x80 ≤ c ∧ c ≤ 0x8F
  else contByte c

/-- `bytes.decode("utf-8", errors="replace")`: the standard UTF-8
decoder in which each maximal subpart of an ill-formed subsequence
(truncated sequence, stray continuation byte, or invalid lead) becomes
one U+FFFD. -/
def utf8DecodeReplace : List UInt8 → List Char
  | [] => []
  | b :: rest =>
    if b ≤ 0x7F then Char.ofNat b.toNat :: utf8DecodeReplace rest
    else if 0xC2 ≤ b ∧ b ≤ 0xDF then
      match rest with
      | [] => [replChar]
      | c1 :: r1 =>
        if contByte c1 then
          Char.ofNat ((b.toNat - 0xC0) * 64 + (c1.toNat - 0x80)) ::
            utf8DecodeReplace r1
        else replChar :: utf8DecodeReplace (c1 :: r1)
    else if 0xE0 ≤ b ∧ b ≤ 0xEF then
      match rest with
      | [] => [replChar]
      | c1 :: r1 =>
        if validSecond3 b c1 then
          match r1 with
          | [] => [replChar]
          | c2 :: r2 =>
            if contByte c2 then
              Char.ofNat ((b.toNat - 0xE0) * 4096 + (c1.toNat - 0x80) * 64 +
                (c2.toNat - 0x80)) :: utf8DecodeReplace r2
            else replChar :: utf8DecodeReplace (c2 :: r2)
        else replChar :: utf8DecodeReplace (c1 :: r1)
    else if 0xF0 ≤ b ∧ b ≤ 0xF4 then
      match rest with
      | [] => [replChar]
      | c1 :: r1 =>
        if validSecond4 b c1 then
          match r1 with
          | [] => [replChar]
          | c2 :: r2 =>
            if contByte c2 then
              match r2 with
              | [] => [replChar]
              | c3 :: r3 =>
                if contByte c3 then
                  Char.ofNat ((b.toNat - 0xF0) * 262144 +
                    (c1.toNat - 0x80) * 4096 + (c2.toNat - 0x80) * 64 +
                    (c3.toNat - 0x80)) :: utf8DecodeReplace r3
                else replChar :: utf8DecodeReplace (c3 :: r3)
            else replChar :: utf8DecodeReplace (c2 :: r2)
        else replChar :: utf8DecodeReplace (c1 :: r1)
    else replChar :: utf8DecodeReplace rest

/-- `chunk.decode("utf-8", errors="replace")` as a `String`. -/
def pyDecodeReplace (bs : List UInt8) : String :=
  ⟨utf8DecodeReplace bs⟩

/-- The slicing loop `for i in range(0, len(value_bytes), size)` taking
`value_bytes[i : i + size]` (the `size = 0` guard only serves
termination; the source always uses `size = 2000`). -/
def chunkList (size : Nat) (l : List UInt8) : List (List UInt8) :=
  if h : l = [] ∨ size = 0 then []
  else l.take size :: chunkList size (l.drop size)
termination_by l.length
decreasing_by
  push_neg at h
  have hl : 0 < l.length := List.length_pos.mpr h.1
  have hs : 0 < size := Nat.pos_of_ne_zero h.2
  simp only [List.length_drop]
  omega

/-- The ASCII digit character for `d < 10`. -/
def digitChar (d : Nat) : Char := Char.ofNat (48 + d)

/-- Decimal digits, least significant first, with explicit fuel so that
the function reduces inside the kernel (the fuel `n` always suffices
since the digit count is at most `n`). -/
def natDigitsLEFuel : Nat → Nat → List Nat
  | 0, n => [n % 10]
  | fuel + 1, n => if n < 10 then [n] else n % 10 :: natDigitsLEFuel fuel (n / 10)

/-- Decimal digits of a natural number, least significant first. -/
def natDigitsLE (n : Nat) : List Nat :=
  natDigitsLEFuel n n

/-- Python `str(n)` for a non-negative integer: its decimal numeral. -/
def pyStrOfNat (n : Nat) : String :=
  ⟨(natDigitsLE n).reverse.map digitChar⟩

/-- Python `str.isspace` characters relevant to `int()` stripping
(ASCII whitespace; the claims never exercise the non-ASCII space
characters Python also strips). -/
def isPySpace (c : Char) : Bool :=
  c = ' ' ∨ c = '\t' ∨ c = '\n' ∨ c = '\r' ∨ c = Char.ofNat 11 ∨ c = Char.ofNat 12

/-- The value of an ASCII decimal digit character, `none` otherwise. -/
def digitVal? (c : Char) : Option Nat :=
  if '0' ≤ c ∧ c ≤ '9' then some (c.toNat - 48) else none

/-- The digit part of Python's `int()` literal grammar: a non-empty
digit sequence in which single underscores may separate two digits.
`afterUnd` records that the previous character was an underscore (which
must be followed by a digit). -/
def parseDigitsGo (afterUnd : Bool) (acc : Nat) : List Char → Option Nat
  | [] => if afterUnd then none else some acc
  | c :: rest =>
    match digitVal? c with
    | some d => parseDigitsGo false (acc * 10 + d) rest
    | none =>
      if afterUnd then none
      else if c = '_' then parseDigitsGo true acc rest
      else none

/-- Entry point requiring the first character to be a digit. -/
def parseDigits : List Char → Option Nat
  | [] => none
  | c :: rest =>
    match digitVal? c with
    | some d => parseDigitsGo false d rest
    | none => none

/-- Python `int(s)`: strip whitespace, optional sign, decimal digits
(with `_` separators); `none` models the `ValueError` raise. -/
def pyInt? (s : String) : Option Int :=
  let t1 := s.data.dropWhile isPySpace
  let t2 := (t1.reverse.dropWhile isPySpace).reverse
  match t2 with
  | [] => none
  | c :: rest =>
    if c = '+' then (parseDigits rest).map Int.ofNat
    else if c = '-' then (parseDigits rest).map (fun n => -(n : Int))
    else (parseDigits (c :: rest)).map Int.ofNat

/-- `SecurityManager.SERVICE_NAME` (the default `service_name`). -/
def SERVICE_NAME : String := "CloudMonitor"

/-- `SecurityManager.MAX_CREDENTIAL_SIZE`. -/
def MAX_CREDENTIAL_SIZE : Nat := 2000

/-- `SecurityManager._make_key`: `f"{self.service_name}:{service_id}:{credential_name}"`. -/
def make_key (service_id credential_name : String) : String :=
  SERVICE_NAME ++ ":" ++ service_id ++ ":" ++ credential_name

/-- The key of the chunk-count sentinel: `f"{key}:chunks"`. -/
def chunksKey (key : String) : String := key ++ ":chunks"

/-- The key of chunk `idx`: `f"{key}:chunk:{idx}"`. -/
def chunkKey (key : String) (idx : Nat) : String :=
  key ++ ":chunk:" ++ pyStrOfNat idx

/-- `SecurityManager._set_chunked_credential`: split the UTF-8 bytes into
2000-byte slices, decode each slice with `errors="replace"`, store the
chunk count under the `:chunks` sentinel and each decoded chunk under
`:chunk:{idx}`. -/
def _set_chunked_credential (v : Vault) (key value : String) : Vault × Bool :=
  let chunks := (chunkList MAX_CREDENTIAL_SIZE (utf8Encode value)).map pyDecodeReplace
  let v1 := v.set (chunksKey key) (pyStrOfNat chunks.length)
  let v2 := chunks.enum.foldl (fun acc p => acc.set (chunkKey key p.1) p.2) v1
  (v2, true)

/-- `SecurityManager.set_credential`: store directly when the UTF-8 byte
length is within `MAX_CREDENTIAL_SIZE`, otherwise chunked. -/
def set_credential (v : Vault) (service_id credential_name value : String) :
    Vault × Bool :=
  let key := make_key service_id credential_name
  if byteLen value > MAX_CREDENTIAL_SIZE then _set_chunked_credential v key value
  else (v.set key value, true)

/-- The `for idx in range(chunks_count)` collection loop of
`_get_chunked_credential`: read each chunk in index order, short-circuit
to `None` on the first missing chunk. -/
def collectChunks (v : Vault) (key : String) : List Nat → Option (List String)
  | [] => some []
  | idx :: rest =>
    match v.get (chunkKey key idx) with
    | none => none
    | some chunk => (collectChunks v key rest).map (chunk :: ·)

/-- `SecurityManager._get_chunked_credential`: read chunks `0..n-1` in
order; if any is missing return `None`, else `"".join(chunks)`.
(`int()` may produce a negative count; `range(n)` is then empty.) -/
def _get_chunked_credential (v : Vault) (key : String) (n : Int) : Option String :=
  (collectChunks v key (List.range n.toNat)).map String.join

/-- `SecurityManager.get_credential`: probe the `:chunks` sentinel; when
present and non-empty, `int(chunks_count)` (whose `ValueError` is NOT
caught — only `KeyringError` is) and reassemble; otherwise read the
plain entry. -/
def get_credential (v : Vault) (service_id credential_name : String) :
    Except PyErr (Option String) :=
  let key := make_key service_id credential_name
  match v.get (chunksKey key) with
  | some cc =>
    if cc = "" then .ok (v.get key)
    else
      match pyInt? cc with
      | some n => .ok (_get_chunked_credential v key n)
      | none => .error .valueError
  | none => .ok (v.get key)

/-- `SecurityManager._delete_chunked_credential`: best-effort delete of
every chunk entry, then of the sentinel. -/
def _delete_chunked_credential (v : Vault) (key : String) (n : Int) : Vault :=
  let v1 := (List.range n.toNat).foldl (fun acc idx => acc.del (chunkKey key idx)) v
  v1.del (chunksKey key)

/-- `SecurityManager.delete_credential`: delete the chunked form when the
sentinel is present (again `int(chunks_count)` can raise `ValueError`),
then best-effort delete of the plain entry; reports `True`. -/
def delete_credential (v : Vault) (service_id credential_name : String) :
    Except PyErr (Vault × Bool) :=
  let key := make_key service_id credential_name
  match v.get (chunksKey key) with
  | some cc =>
    if cc = "" then .ok (v.del key, true)
    else
      match pyInt? cc with
      | some n => .ok ((_delete_chunked_credential v key n).del key, true)
      | none => .error .valueError
  | none => .ok (v.del key, true)

/-- `SecurityManager.get_credentials`: batch get, keeping only present
fields, in list order. -/
def get_credentials (v : Vault) (service_id : String) (names : List String) :
    Except PyErr (List (String × String)) :=
  names.foldlM
    (fun acc name => do
      match (← get_credential v service_id name) with
      | some value => pure (acc ++ [(name, value)])
      | none => pure acc)
    []

/-- `SecurityManager.set_credentials`: batch set; `success` becomes
`False` when any single set fails. -/
def set_credentials (v : Vault) (service_id : String)
    (credentials : List (String × String)) : Vault × Bool :=
  credentials.foldl
    (fun st kv =>
      let r := set_credential st.1 service_id kv.1 kv.2
      (r.1, st.2 && r.2))
    (v, true)

/-- `SecurityManager.delete_all_credentials`: batch delete. -/
def delete_all_credentials (v : Vault) (service_id : String)
    (names : List String) : Except PyErr (Vault × Bool) :=
  names.foldlM
    (fun st name => do
      let r ← delete_credential st.1 service_id name
      pure (r.1, st.2 && r.2))
    (v, true)

/-- `SecurityManager.has_credentials`: `False` as soon as one required
name is absent. -/
def has_credentials (v : Vault) (service_id : String) :
    List String → Except PyErr Bool
  | [] => .ok true
  | name :: rest => do
    match (← get_credential v service_id name) with
    | none => .ok false
    | some _ => has_credentials v service_id rest

/-- The decoded chunk list `_set_chunked_credential` stores for `value`:
the 2000-byte slices of its UTF-8 encoding, each decoded with
`errors="replace"`. -/
def chunksOf (value : String) : List String :=
  (chunkList MAX_CREDENTIAL_SIZE (utf8Encode value)).map pyDecodeReplace

/-- What the chunk store actually holds for `value` once reassembled. -/
def chunkedReassembly (value : String) : String :=
  String.join (chunksOf value)

/-! ## core/cache_mgr.py

The `monitor_cache` table keyed by `service_id` (PRIMARY KEY); only the
`result_json` column feeds `load`/`load_all`, so a row is modelled as
`(service_id, result_json)`.  Deserialization
(`MonitorResult.model_validate_json`, an external pydantic call) is an
abstract parameter `parse`; `parse blob = none` models the
`except Exception` branch. -/

abbrev CacheDb := List (String × String)

/-- Generic Python dict assignment `m[k] = a` on an association list. -/
def dictSet {α : Type} (m : List (String × α)) (k : String) (a : α) :
    List (String × α) :=
  if (m.find? fun p => p.1 = k).isSome then
    m.map (fun p => if p.1 = k then (k, a) else p)
  else m ++ [(k, a)]

/-- Dict lookup. -/
def dictGet {α : Type} (m : List (String × α)) (k : String) : Option α :=
  (m.find? fun p => p.1 = k).map (·.2)

/-- `CacheManager.delete`: `DELETE ... WHERE service_id = ?`, reporting
whether a row was removed. -/
def cacheDelete (db : CacheDb) (service_id : String) : CacheDb × Bool :=
  ((db.filter fun p => ¬ p.1 = service_id),
   (db.find? fun p => p.1 = service_id).isSome)

/-- `CacheManager.save`: `INSERT OR REPLACE`, one row per service, with
`serialize` standing for `result.model_dump_json()`. -/
def cacheSave (serialize : MonitorResult → String) (db : CacheDb)
    (service_id : String) (result : MonitorResult) : CacheDb :=
  dictSet db service_id (serialize result)

/-- `CacheManager.load`: fetch the row; on deserialization failure delete
the row and return `None`. -/
def cacheLoad (parse : String → Option MonitorResult) (db : CacheDb)
    (service_id : String) : CacheDb × Option MonitorResult :=
  match dictGet db service_id with
  | none => (db, none)
  | some blob =>
    match parse blob with
    | some r => (db, some r)
    | none => ((cacheDelete db service_id).1, none)

/-- `CacheManager.load_all`: scan every row, keep the ones that
deserialize, silently skip the ones that do not; the table itself is
never written (the `CacheDb` component of the result is the table after
the call). -/
def cacheLoadAll (parse : String → Option MonitorResult) (db : CacheDb) :
    CacheDb × List (String × MonitorResult) :=
  (db,
   db.foldl
     (fun results row =>
       match parse row.2 with
       | some r => dictSet results row.1 r
       | none => results)
     [])

/-! ## core/plugin_mgr.py and ui/dashboard.py -/

/-- The behaviour of one `BaseMonitor.refresh()` call (i.e. of the
plugin's `fetch_data`): either a `MonitorResult` or a raised exception
with message `msg`. -/
inductive FetchOutcome where
  | ok (r : MonitorResult)
  | raises (msg : String)
deriving DecidableEq, Repr

/-- A live provider instance as the refresh paths see it. -/
structure Inst where
  service_id : String
  plugin_id : String
  provider_name : String
  enabled : Bool
  outcome : FetchOutcome
deriving DecidableEq, Repr

/-- `PluginManager.refresh_all`: loop over `_instances` in insertion
order; for each enabled instance `await instance.refresh()`; on success
record the instance (carrying its fresh result) under its id, on an
exception print and continue.  The returned map is modelled as the list
of `(service_id, refreshed result)` pairs. -/
def refresh_all (instances : List Inst) : List (String × MonitorResult) :=
  instances.foldl
    (fun results i =>
      if i.enabled then
        match i.outcome with
        | .ok r => results ++ [(i.service_id, r)]
        | .raises _ => results
      else results)
    []

/-- `BaseMonitor._create_error_result` as called by the dashboard's
exception handler (`monitor._create_error_result(f"刷新失败: {e!s}")`);
`now` abstracts `datetime.now()`. -/
def create_error_result (i : Inst) (error_message : String) (now : Nat) :
    MonitorResult :=
  { plugin_id := i.plugin_id
    provider_name := i.provider_name
    metrics := [{ label := "错误", value := "获取失败", status := .error }]
    raw_error := some error_message
    last_updated := some now }

/-- The observable effects of the dashboard refresh path. -/
structure RefreshEffects where
  saves : List (String × MonitorResult)
  cardUpdates : List (String × MonitorResult)
  events : List EventType
deriving DecidableEq, Repr

def RefreshEffects.empty : RefreshEffects := ⟨[], [], []⟩

def RefreshEffects.append (a b : RefreshEffects) : RefreshEffects :=
  ⟨a.saves ++ b.saves, a.cardUpdates ++ b.cardUpdates, a.events ++ b.events⟩

/-- `DashboardPage._refresh_monitor`: on success update the card, save
the result to the cache and publish `CACHE_UPDATED`; on an exception
update the card with an error result and publish `REFRESH_FAILED`
(no cache write in that branch). -/
def _refresh_monitor (i : Inst) (now : Nat) : RefreshEffects :=
  match i.outcome with
  | .ok r =>
    { saves := [(i.service_id, r)]
      cardUpdates := [(i.service_id, r)]
      events := [.cache_updated] }
  | .raises msg =>
    { saves := []
      cardUpdates := [(i.service_id, create_error_result i ("刷新失败: " ++ msg) now)]
      events := [.refresh_failed] }

/-- The `asyncio.gather` over `_refresh_monitor` for every enabled
monitor (fan-out order is immaterial to the claims; effects are listed
in monitor order). -/
def gatherRefresh (monitors : List Inst) (now : Nat) : RefreshEffects :=
  monitors.foldl
    (fun acc i => if i.enabled then acc.append (_refresh_monitor i now) else acc)
    RefreshEffects.empty

/-- The dashboard state driving the re-entrancy guard. -/
structure DashState where
  is_refreshing : Bool
deriving DecidableEq, Repr

/-- `DashboardPage._refresh_all_async`: return immediately when
`_is_refreshing` is already set; otherwise set the flag, publish
`REFRESH_STARTED`, fan out, clear the flag, publish `REFRESH_COMPLETED`.
Returns the final state, the service ids whose `fetch` was invoked, and
the effects. -/
def _refresh_all_async (st : DashState) (monitors : List Inst) (now : Nat) :
    DashState × List String × RefreshEffects :=
  if st.is_refreshing then (st, [], RefreshEffects.empty)
  else
    let fetched := (monitors.filter (·.enabled)).map (·.service_id)
    let inner := gatherRefresh monitors now
    ({ is_refreshing := false }, fetched,
     ⟨inner.saves, inner.cardUpdates,
      [.refresh_started] ++ inner.events ++ [.refresh_completed]⟩)

/-! ### Service lifecycle (`PluginManager.add_service` / `remove_service`)

`ConfigManager` rows live in SQLite; the `services` table and the
(config) `cache` table are association lists.  The CacheManager's
`monitor_cache` store is carried alongside to observe that
`remove_service` never touches it.  Plugin classes are represented by
the registry mapping `plugin_type` to the class's
`required_credentials` metadata. -/

/-- A row of the `services` table (`ServiceConfig` in `core/config_mgr.py`);
timestamps are the iso strings produced by `datetime.now().isoformat()`. -/
structure ServiceConfig where
  service_id : String
  plugin_type : String
  «alias» : String
  enabled : Bool
  created_at : String
  updated_at : String
deriving DecidableEq, Repr

/-- `PLUGIN_REGISTRY`, reduced to the metadata the lifecycle reads:
`plugin_type ↦ required_credentials`. -/
abbrev Registry := List (String × List String)

/-- A cached `BaseMonitor` instance as `_instances` holds it. -/
structure InstMeta where
  «alias» : String
  required_credentials : List String
  credentials : List (String × String)
  enabled : Bool
deriving DecidableEq, Repr

/-- The composite state the lifecycle operations act on. -/
structure PMState where
  vault : Vault
  services : List ServiceConfig
  configCache : List (String × String)
  monitorCache : CacheDb
  instances : List (String × InstMeta)
deriving DecidableEq, Repr

/-- `PyErr` extended: `ConfigManager.add_service` violates the PRIMARY
KEY when the generated id already exists, raising
`sqlite3.IntegrityError`. -/
inductive LifecycleErr where
  | valueError
  | integrityError
deriving DecidableEq, Repr

/-- Lift the credential-store error. -/
def LifecycleErr.ofPyErr : PyErr → LifecycleErr
  | .valueError => .valueError

/-- `service_id` generation in `ConfigManager.add_service`:
`f"{plugin_type}_{now.replace(':', '-').replace('.', '-')}"`. -/
def genServiceId (plugin_type now : String) : String :=
  plugin_type ++ "_" ++ ⟨now.data.map (fun c => if c = ':' ∨ c = '.' then '-' else c)⟩

/-- `PluginManager.create_instance`: read the class's
`required_credentials`, fetch those credentials from the vault
(`get_credentials` can propagate the sentinel `ValueError`), build the
instance and cache it under its id. -/
def create_instance (reg : Registry) (st : PMState) (cfg : ServiceConfig) :
    Except LifecycleErr (PMState × Bool) :=
  match reg.find? (fun p => p.1 = cfg.plugin_type) with
  | none => .ok (st, false)
  | some entry =>
    match get_credentials st.vault cfg.service_id entry.2 with
    | .error e => .error (LifecycleErr.ofPyErr e)
    | .ok creds =>
      let meta : InstMeta :=
        { «alias» := cfg.alias
          required_credentials := entry.2
          credentials := creds
          enabled := cfg.enabled }
      .ok ({ st with instances := dictSet st.instances cfg.service_id meta }, true)

/-- `PluginManager.add_service`: `None` for an unknown plugin type;
otherwise create the ServiceRecord (fresh generated id), store all
supplied credentials, and instantiate.  Returns the new `service_id`
when an instance was created. -/
def add_service (reg : Registry) (st : PMState) (plugin_type «alias» : String)
    (credentials : List (String × String)) (now : String) :
    Except LifecycleErr (PMState × Option String) :=
  match reg.find? (fun p => p.1 = plugin_type) with
  | none => .ok (st, none)
  | some _ =>
    let service_id := genServiceId plugin_type now
    if (st.services.find? fun c => c.service_id = service_id).isSome then
      .error .integrityError
    else
      let cfg : ServiceConfig :=
        { service_id := service_id, plugin_type := plugin_type, «alias» := «alias»
          enabled := true, created_at := now, updated_at := now }
      let st1 := { st with services := st.services ++ [cfg] }
      let r := set_credentials st1.vault service_id credentials
      let st2 := { st1 with vault := r.1 }
      match st2.services.find? (fun c => c.service_id = service_id) with
      | some cfg2 =>
        match create_instance reg st2 cfg2 with
        | .error e => .error e
        | .ok (st3, ok) => .ok (st3, if ok then some service_id else none)
      | none => .ok (st2, none)

/-- The deletion steps `remove_service` performs, in program order. -/
inductive RemovalOp where
  | delCred (field : String)
  | delCache
  | delRecord
deriving DecidableEq, Repr

/-- `PluginManager.remove_service`: when a live instance exists, delete
its `required_credentials` fields and drop the instance; then clear the
config cache row; then delete the ServiceRecord (reporting whether one
was deleted).  The trace records the order of the deletions. -/
def remove_service (st : PMState) (service_id : String) :
    Except LifecycleErr (PMState × Bool × List RemovalOp) :=
  match dictGet st.instances service_id with
  | some meta =>
    match delete_all_credentials st.vault service_id meta.required_credentials with
    | .error e => .error (LifecycleErr.ofPyErr e)
    | .ok r =>
      let st1 := { st with
        vault := r.1
        instances := st.instances.filter fun p => ¬ p.1 = service_id }
      let st2 := { st1 with
        configCache := st1.configCache.filter fun p => ¬ p.1 = service_id }
      let deleted := (st2.services.find? fun c => c.service_id = service_id).isSome
      let st3 := { st2 with
        services := st2.services.filter fun c => ¬ c.service_id = service_id }
      .ok (st3, deleted,
        meta.required_credentials.map RemovalOp.delCred ++ [.delCache, .delRecord])
  | none =>
    let st2 := { st with
      configCache := st.configCache.filter fun p => ¬ p.1 = service_id }
    let deleted := (st2.services.find? fun c => c.service_id = service_id).isSome
    let st3 := { st2 with
      services := st2.services.filter fun c => ¬ c.service_id = service_id }
    .ok (st3, deleted, [.delCache, .delRecord])

/-! ### Auxiliary predicates and concrete instances used by the theorems -/

/-- The chunk-count sentinel stored for `key` (if any) is well formed:
empty or a valid Python integer literal.  This is exactly the condition
under which `int(chunks_count)` cannot raise. -/
def sentinelOk (v : Vault) (key : String) : Bool :=
  match v.get (chunksKey key) with
  | some cc => cc = "" || (pyInt? cc).isSome
  | none => true

/-- `v'` arises from `v` purely by deletions: every key reads the same
value as in `v` or is gone. -/
def Filtrate (v' v : Vault) : Prop :=
  ∀ k, v'.get k = v.get k ∨ v'.get k = none

/-- A 2001-byte value whose 2000-byte chunk boundary severs the two-byte
UTF-8 sequence of `'¢'` (U+00A2): 1999 `'a'`s followed by `'¢'`. -/
def c1val : String := ⟨List.replicate 1999 'a' ++ [Char.ofNat 0xA2]⟩

/-- What the chunk store gives back for `c1val`: both halves of the
severed codepoint decode to U+FFFD. -/
def c1corrupt : String := ⟨List.replicate 1999 'a' ++ [replChar, replChar]⟩

/-- A 2001-byte ASCII value, stored chunked. -/
def c3long : String := ⟨List.replicate 2001 'a'⟩

/-- A successful fetch payload for the refresh counterexample. -/
def c2okResult : MonitorResult :=
  { plugin_id := "mock", provider_name := "Mock" }

/-- Two enabled instances, the second of which raises from `fetch`. -/
def c2insts : List Inst :=
  [{ service_id := "a", plugin_id := "mock", provider_name := "Mock",
     enabled := true, outcome := .ok c2okResult },
   { service_id := "b", plugin_id := "mock", provider_name := "Mock",
     enabled := true, outcome := .raises "boom" }]

/-- A registry with one provider type requiring the single field `api_key`. -/
def c5reg : Registry := [("mock", ["api_key"])]

/-- The pristine lifecycle state. -/
def c5st0 : PMState :=
  { vault := [], services := [], configCache := [], monitorCache := [], instances := [] }

/-- The state after `add_service("mock", "m", {"k": "v"})` — a supplied
credential field that is NOT among the provider's required fields. -/
def c5afterAdd : PMState :=
  match add_service c5reg c5st0 "mock" "m" [("k", "v")] "T" with
  | .ok (st, _) => st
  | .error _ => c5st0

/-- The state after the subsequent `remove_service`. -/
def c5afterRemove : PMState :=
  match remove_service c5afterAdd "mock_T" with
  | .ok (st, _, _) => st
  | .error _ => c5st0

/-- Witness run for the amended lifecycle claim: the supplied field is
the provider's required `api_key`. -/
def c5wAfterAdd : PMState :=
  match add_service c5reg c5st0 "mock" "m" [("api_key", "v")] "T" with
  | .ok (st, _) => st
  | .error _ => c5st0

def c5wAfterRemove : PMState :=
  match remove_service c5wAfterAdd "mock_T" with
  | .ok (st, _, _) => st
  | .error _ => c5st0

/-! ## Theorems -/

/-! ### C9: overall_status derivation -/

theorem statusMax_step (a b : Status) :
    (if statusPriority b > statusPriority a then b else a) = statusMax a b := by
  cases a <;> cases b <;> rfl

theorem statusMax_assoc (a b c : Status) :
    statusMax (statusMax a b) c = statusMax a (statusMax b c) := by
  cases a <;> cases b <;> cases c <;> rfl

theorem statusMax_normal_right (a : Status) : statusMax a .normal = a := by
  cases a <;> rfl

theorem statusMax_normal_left (a : Status) : statusMax .normal a = a := by
  cases a <;> rfl

theorem foldl_statusMax (l : List MetricData) : ∀ acc : Status,
    l.foldl
      (fun maxStatus m =>
        if statusPriority m.status > statusPriority maxStatus then m.status
        else maxStatus)
      acc = statusMax acc (maxSeverity l) := by
  induction l with
  | nil => intro acc; simp [maxSeverity, statusMax_normal_right]
  | cons m t ih =>
    intro acc
    rw [List.foldl_cons, ih, statusMax_step]
    show statusMax (statusMax acc m.status) (maxSeverity t) = _
    rw [statusMax_assoc]
    rfl

/-- C9. `overall_status` equals `"error"` when `raw_error` is set;
otherwise it is the maximum-severity status across the metrics under
normal < warning < error, and `"normal"` when the metrics list is
empty. -/
theorem c9_overall_status_derivation (r : MonitorResult) :
    (r.raw_error.isSome = true → r.overall_status = Status.error) ∧
    (r.raw_error = none → r.overall_status = maxSeverity r.metrics) ∧
    (r.raw_error = none → r.metrics = [] → r.overall_status = Status.normal) := by
  refine ⟨fun h => ?_, fun h => ?_, fun h hm => ?_⟩
  · simp [MonitorResult.overall_status, MonitorResult.has_error, h]
  · simp only [MonitorResult.overall_status, MonitorResult.has_error, h,
      Option.isSome_none, Bool.false_eq_true, if_false]
    rw [foldl_statusMax, statusMax_normal_left]
  · simp [MonitorResult.overall_status, MonitorResult.has_error, h, hm]

/-- Witness for C9 at concrete results: `raw_error` set forces `error`
regardless of metrics; with no `raw_error`, metrics `[normal, warning]`
yield `warning`. -/
theorem c9_overall_status_derivation_witness :
    MonitorResult.overall_status
      { plugin_id := "p", provider_name := "P",
        metrics := [{ label := "l", value := "v", status := .normal },
                    { label := "l2", value := "v2", status := .warning }],
        raw_error := some "boom" } = Status.error ∧
    MonitorResult.overall_status
      { plugin_id := "p", provider_name := "P",
        metrics := [{ label := "l", value := "v", status := .normal },
                    { label := "l2", value := "v2", status := .warning }] }
      = Status.warning := by
  constructor
  · exact (c9_overall_status_derivation _).1 rfl
  · have h := (c9_overall_status_derivation
      { plugin_id := "p", provider_name := "P",
        metrics := [{ label := "l", value := "v", status := .normal },
                    { label := "l2", value := "v2", status := .warning }] }).2.1 rfl
    rw [h]; rfl

/-! ### C10: subscribe idempotence -/

/-- C10. Subscribing a callback that is already subscribed leaves the
subscriber map unchanged, hence `subscriber_count` does not grow, and a
subsequent `publish` invokes the callback exactly once (the subscriber
list being duplicate-free, the invariant `subscribe` maintains). -/
theorem c10_subscribe_idempotent (s : Subscribers) (et : EventType) (cb : Callback)
    (hnd : (s.get et).Nodup) (hmem : cb ∈ s.get et) :
    s.subscribe et cb = s ∧
    (s.subscribe et cb).subscriberCount et = s.subscriberCount et ∧
    ((s.subscribe et cb).publishCalls et).count cb = 1 := by
  have hco : s.contains et = true := by
    unfold Subscribers.contains
    unfold Subscribers.get at hmem
    cases hf : s.find? (fun p => p.1 = et) with
    | none => rw [hf] at hmem; simp at hmem
    | some p => simp
  have hsub : s.subscribe et cb = s := by
    unfold Subscribers.subscribe
    simp only [hco, if_true, hmem, ite_true]
  refine ⟨hsub, by rw [hsub], ?_⟩
  rw [hsub]
  exact List.count_eq_one_of_mem hnd hmem

/-- Witness for C10: a bus with callback `5` already subscribed to
`refresh_started`. -/
theorem c10_subscribe_idempotent_witness :
    Subscribers.subscribe [(EventType.refresh_started, [5])] .refresh_started 5
      = [(EventType.refresh_started, [5])] ∧
    Subscribers.subscriberCount
      (Subscribers.subscribe [(EventType.refresh_started, [5])] .refresh_started 5)
      .refresh_started
      = Subscribers.subscriberCount [(EventType.refresh_started, [5])] .refresh_started ∧
    (Subscribers.publishCalls
      (Subscribers.subscribe [(EventType.refresh_started, [5])] .refresh_started 5)
      .refresh_started).count 5 = 1 :=
  c10_subscribe_idempotent [(EventType.refresh_started, [5])] .refresh_started 5
    (by decide) (by decide)

/-! ### C8: re-entrant refresh is a no-op -/

/-- C8. While a refresh-all run is in flight (`_is_refreshing` set), a
second `_refresh_all_async` request returns immediately: the state is
unchanged, no provider's `fetch` is invoked, and no effect (cache write,
card update, event) is produced. -/
theorem c8_reentrant_refresh_noop (st : DashState) (monitors : List Inst) (now : Nat)
    (h : st.is_refreshing = true) :
    _refresh_all_async st monitors now = (st, [], RefreshEffects.empty) := by
  unfold _refresh_all_async
  rw [h]
  rfl

/-- Witness for C8: a refresh request arriving while one enabled monitor
run is in flight performs no fetch at all. -/
theorem c8_reentrant_refresh_noop_witness :
    _refresh_all_async { is_refreshing := true }
      [{ service_id := "a", plugin_id := "m", provider_name := "M",
         enabled := true, outcome := .ok { plugin_id := "m", provider_name := "M" } }] 7
      = ({ is_refreshing := true }, [], RefreshEffects.empty) :=
  c8_reentrant_refresh_noop { is_refreshing := true }
    [{ service_id := "a", plugin_id := "m", provider_name := "M",
       enabled := true, outcome := .ok { plugin_id := "m", provider_name := "M" } }] 7 rfl

/-! ### C7: no partial reassembly -/

theorem collectChunks_eq_none (v : Vault) (key : String) (i : Nat)
    (hmiss : v.get (chunkKey key i) = none) :
    ∀ idxs : List Nat, i ∈ idxs → collectChunks v key idxs = none := by
  intro idxs
  induction idxs with
  | nil => intro h; simp at h
  | cons j t ih =>
    intro hm
    rcases List.mem_cons.mp hm with hji | hit
    · subst hji
      unfold collectChunks
      rw [hmiss]
    · unfold collectChunks
      cases hj : v.get (chunkKey key j) with
      | none => rfl
      | some c => rw [ih hit]; rfl

/-- C7. When the chunk-count sentinel for a credential is present (a
non-empty string parsing to `n`) but some chunk `i < n` is missing,
`get_credential` returns absent — it never returns a concatenation of
only the chunks that are present. -/
theorem c7_no_partial_reassembly (v : Vault) (sid f cc : String) (n : Int) (i : Nat)
    (hcc : v.get (chunksKey (make_key sid f)) = some cc)
    (hne : ¬ cc = "")
    (hint : pyInt? cc = some n)
    (hi : (i : Int) < n)
    (hmiss : v.get (chunkKey (make_key sid f) i) = none) :
    get_credential v sid f = .ok none := by
  simp only [get_credential, hcc, hne, if_false, hint]
  unfold _get_chunked_credential
  rw [collectChunks_eq_none v _ i hmiss _ (List.mem_range.mpr (by omega))]
  rfl

/-- Witness for C7: a sentinel of `2` with only chunk `0` present reads
back as absent. -/
theorem c7_no_partial_reassembly_witness :
    get_credential
      [(chunksKey (make_key "s" "f"), "2"), (chunkKey (make_key "s" "f") 0, "x")]
      "s" "f" = .ok none :=
  c7_no_partial_reassembly
    [(chunksKey (make_key "s" "f"), "2"), (chunkKey (make_key "s" "f") 0, "x")]
    "s" "f" "2" 2 1 (by decide) (by decide) (by decide) (by decide) (by decide)

/-! ### C2: refresh isolation -/

/-- Counterexample to C2 as stated: with two enabled instances of which
the second raises, `refresh_all` returns 1 result (not 2), no returned
result bears `raw_error`, and the dashboard path caches only the
successful service — there is no cache row for `"b"`. -/
theorem c2_counterexample :
    (refresh_all c2insts).length = 1 ∧
    ((refresh_all c2insts).filter (fun p => p.2.raw_error.isSome)).length = 0 ∧
    (gatherRefresh c2insts 0).saves.map Prod.fst = ["a"] := by
  refine ⟨rfl, rfl, rfl⟩

theorem refresh_all_foldl_eq (insts : List Inst) :
    ∀ acc : List (String × MonitorResult),
    insts.foldl
      (fun results i =>
        if i.enabled then
          match i.outcome with
          | .ok r => results ++ [(i.service_id, r)]
          | .raises _ => results
        else results)
      acc
    = acc ++ insts.filterMap (fun i =>
        if i.enabled then
          match i.outcome with
          | .ok r => some (i.service_id, r)
          | .raises _ => none
        else none) := by
  induction insts with
  | nil => intro acc; simp
  | cons i t ih =>
    intro acc
    rw [List.foldl_cons, List.filterMap_cons]
    by_cases he : i.enabled = true
    · cases ho : i.outcome with
      | ok r => simp only [he, if_true, ho]; rw [ih]; simp
      | raises m => simp only [he, if_true, ho]; rw [ih]
    · simp only [if_neg he, List.filterMap_cons]
      rw [ih]

theorem refresh_all_eq (insts : List Inst) :
    refresh_all insts = insts.filterMap (fun i =>
      if i.enabled then
        match i.outcome with
        | .ok r => some (i.service_id, r)
        | .raises _ => none
      else none) := by
  rw [refresh_all, refresh_all_foldl_eq]
  rfl

theorem gatherRefresh_eq (ms : List Inst) (now : Nat) :
    gatherRefresh ms now =
      ⟨ms.filterMap (fun i =>
          if i.enabled then
            match i.outcome with
            | .ok r => some (i.service_id, r)
            | .raises _ => none
          else none),
       ms.filterMap (fun i =>
          if i.enabled then
            some (i.service_id,
              match i.outcome with
              | .ok r => r
              | .raises msg => create_error_result i ("刷新失败: " ++ msg) now)
          else none),
       ms.filterMap (fun i =>
          if i.enabled then
            some (match i.outcome with
              | .ok _ => EventType.cache_updated
              | .raises _ => EventType.refresh_failed)
          else none)⟩ := by
  have aux : ∀ (l : List Inst) (acc : RefreshEffects),
      l.foldl (fun acc i =>
        if i.enabled then acc.append (_refresh_monitor i now) else acc) acc
      = acc.append
        ⟨l.filterMap (fun i =>
            if i.enabled then
              match i.outcome with
              | .ok r => some (i.service_id, r)
              | .raises _ => none
            else none),
         l.filterMap (fun i =>
            if i.enabled then
              some (i.service_id,
                match i.outcome with
                | .ok r => r
                | .raises msg => create_error_result i ("刷新失败: " ++ msg) now)
            else none),
         l.filterMap (fun i =>
            if i.enabled then
              some (match i.outcome with
                | .ok _ => EventType.cache_updated
                | .raises _ => EventType.refresh_failed)
            else none)⟩ := by
    intro l
    induction l with
    | nil =>
      intro acc
      simp only [List.foldl_nil, List.filterMap_nil]
      cases acc
      simp [RefreshEffects.append]
    | cons i t ih =>
      intro acc
      rw [List.foldl_cons]
      by_cases he : i.enabled = true
      · cases ho : i.outcome with
        | ok r =>
          simp only [he, if_true, ho, List.filterMap_cons]
          rw [ih]
          cases acc
          simp [RefreshEffects.append, _refresh_monitor, ho]
        | raises m =>
          simp only [he, if_true, ho, List.filterMap_cons]
          rw [ih]
          cases acc
          simp [RefreshEffects.append, _refresh_monitor, ho]
      · simp only [if_neg he, List.filterMap_cons]
        rw [ih]
  rw [gatherRefresh, aux]
  rfl

/-- C2 amended.  With one instance raising from `fetch`: sibling fetches
are isolated (every other enabled instance's success still appears in
`refresh_all`'s results and is still cached by the dashboard path), but
the raising instance is dropped from the results instead of appearing
with `raw_error`, nothing is cached for it (the dashboard shows an error
card and publishes `refresh_failed` instead), and `refresh_all` returns
one result per enabled non-raising instance. -/
theorem c2_refresh_isolation_amended (insts : List Inst) (now : Nat)
    (hnd : (insts.map Inst.service_id).Nodup) :
    (∀ i ∈ insts, i.enabled = true → ∀ r, i.outcome = .ok r →
        (i.service_id, r) ∈ refresh_all insts ∧
        (i.service_id, r) ∈ (gatherRefresh insts now).saves) ∧
    (∀ i ∈ insts, i.enabled = true → ∀ msg, i.outcome = .raises msg →
        (∀ r, (i.service_id, r) ∉ refresh_all insts) ∧
        (∀ r, (i.service_id, r) ∉ (gatherRefresh insts now).saves) ∧
        (i.service_id, create_error_result i ("刷新失败: " ++ msg) now) ∈
          (gatherRefresh insts now).cardUpdates ∧
        EventType.refresh_failed ∈ (gatherRefresh insts now).events) ∧
    (refresh_all insts).length =
      (insts.filter (fun i => i.enabled &&
        match i.outcome with | .ok _ => true | .raises _ => false)).length := by
  refine ⟨?_, ?_, ?_⟩
  · intro i hi he r ho
    constructor
    · rw [refresh_all_eq]
      exact List.mem_filterMap.mpr ⟨i, hi, by simp [he, ho]⟩
    · rw [gatherRefresh_eq]
      exact List.mem_filterMap.mpr ⟨i, hi, by simp [he, ho]⟩
  · intro i hi he msg ho
    have habs : ∀ (f : Inst → Option (String × MonitorResult)),
        (∀ j r', f j = some (i.service_id, r') →
          j.enabled = true ∧ ∃ r'', j.outcome = .ok r'' ∧ j.service_id = i.service_id) →
        ∀ r, (i.service_id, r) ∉ insts.filterMap f := by
      intro f hf r hmem
      obtain ⟨j, hj, hfj⟩ := List.mem_filterMap.mp hmem
      obtain ⟨hje, r'', hjo, hjs⟩ := hf j r hfj
      have hij : j = i :=
        List.inj_on_of_nodup_map hnd hj hi hjs
      rw [hij] at hjo
      rw [ho] at hjo
      exact FetchOutcome.noConfusion hjo
    refine ⟨?_, ?_, ?_, ?_⟩
    · rw [refresh_all_eq]
      apply habs
      intro j r' hfj
      by_cases hje : j.enabled = true
      · cases hjo : j.outcome with
        | ok rr =>
          simp [hje, hjo] at hfj
          exact ⟨hje, rr, rfl, hfj.1⟩
        | raises m => simp [hje, hjo] at hfj
      · simp [hje] at hfj
    · rw [gatherRefresh_eq]
      apply habs
      intro j r' hfj
      by_cases hje : j.enabled = true
      · cases hjo : j.outcome with
        | ok rr =>
          simp [hje, hjo] at hfj
          exact ⟨hje, rr, rfl, hfj.1⟩
        | raises m => simp [hje, hjo] at hfj
      · simp [hje] at hfj
    · rw [gatherRefresh_eq]
      exact List.mem_filterMap.mpr ⟨i, hi, by simp [he, ho]⟩
    · rw [gatherRefresh_eq]
      exact List.mem_filterMap.mpr ⟨i, hi, by simp [he, ho]⟩
  · rw [refresh_all_eq]
    clear hnd
    induction insts with
    | nil => rfl
    | cons i t ih =>
      rw [List.filterMap_cons, List.filter_cons]
      by_cases he : i.enabled = true
      · cases ho : i.outcome with
        | ok r =>
          simp only [he, ho, Bool.true_and, if_true, List.length_cons]
          rw [ih]
        | raises m =>
          simp only [he, ho, Bool.true_and, Bool.false_eq_true, if_false]
          exact ih
      · have hb : i.enabled = false := by
          cases hbb : i.enabled
          · rfl
          · exact absurd hbb he
        simp only [if_neg he, hb, Bool.false_and, Bool.false_eq_true, if_false]
        exact ih

/-- Witness for C2 amended at the two-instance counterexample input. -/
theorem c2_refresh_isolation_amended_witness :
    ((refresh_all c2insts).length =
      (c2insts.filter (fun i => i.enabled &&
        match i.outcome with | .ok _ => true | .raises _ => false)).length) ∧
    (∀ r, ("b", r) ∉ refresh_all c2insts) := by
  have h := c2_refresh_isolation_amended c2insts 0 (by decide)
  refine ⟨h.2.2, ?_⟩
  intro r
  exact (h.2.1 (c2insts.get ⟨1, by decide⟩) (by decide) rfl "boom" rfl).1 r

/-! ### C4: cache self-healing -/

/-- Counterexample to C4 as stated: on a table holding one corrupt row,
`load_all` returns no results but leaves the corrupt row in the table —
it does not delete it as the claim asserts. -/
theorem c4_counterexample :
    (cacheLoadAll (fun _ => none) [("s", "bad")]).2 = [] ∧
    (cacheLoadAll (fun _ => none) [("s", "bad")]).1 = [("s", "bad")] ∧
    ¬ (cacheLoadAll (fun _ => none) [("s", "bad")]).1 = (cacheDelete [("s", "bad")] "s").1 := by
  refine ⟨rfl, rfl, by decide⟩

theorem dictGet_of_mem {α : Type} (db : List (String × α)) (p : String × α)
    (hnd : (db.map Prod.fst).Nodup) (hp : p ∈ db) : dictGet db p.1 = some p.2 := by
  induction db with
  | nil => simp at hp
  | cons q t ih =>
    rcases List.mem_cons.mp hp with hq | ht
    · subst hq
      unfold dictGet
      simp
    · have hmt : p.1 ∈ t.map Prod.fst := List.mem_map.mpr ⟨p, ht, rfl⟩
      have hq1 : ¬ q.1 = p.1 := by
        intro hqq
        rw [List.map_cons] at hnd
        exact (List.nodup_cons.mp hnd).1 (hqq ▸ hmt)
      have step : dictGet (q :: t) p.1 = dictGet t p.1 := by
        unfold dictGet
        rw [List.find?_cons]
        simp [hq1]
      rw [step]
      exact ih (by rw [List.map_cons] at hnd; exact (List.nodup_cons.mp hnd).2) ht

theorem cacheLoadAll_go (parse : String → Option MonitorResult) :
    ∀ (db : CacheDb) (acc : List (String × MonitorResult)),
    (∀ k, k ∈ acc.map Prod.fst → k ∉ db.map Prod.fst) →
    (db.map Prod.fst).Nodup →
    db.foldl
      (fun results row =>
        match parse row.2 with
        | some r => dictSet results row.1 r
        | none => results)
      acc
    = acc ++ db.filterMap (fun row => (parse row.2).map (fun r => (row.1, r))) := by
  intro db
  induction db with
  | nil => intro acc _ _; simp
  | cons row t ih =>
    intro acc hdisj hnd
    rw [List.foldl_cons, List.filterMap_cons]
    cases hp : parse row.2 with
    | none =>
      simp only [hp, Option.map_none']
      exact ih acc
        (fun k hk hkt => hdisj k hk (by simp [hkt]))
        (by rw [List.map_cons] at hnd; exact (List.nodup_cons.mp hnd).2)
    | some r =>
      have hfreshmem : row.1 ∉ acc.map Prod.fst := by
        intro hin
        exact hdisj row.1 hin (by simp)
      have hset : dictSet acc row.1 r = acc ++ [(row.1, r)] := by
        unfold dictSet
        rw [if_neg]
        intro hs
        rw [Option.isSome_iff_exists] at hs
        obtain ⟨q, hq⟩ := hs
        have hqmem := List.mem_of_find?_eq_some hq
        have := List.find?_some hq
        simp only [decide_eq_true_eq] at this
        exact hfreshmem (List.mem_map.mpr ⟨q, hqmem, this⟩)
      simp only [hp, Option.map_some', hset]
      rw [ih (acc ++ [(row.1, r)]) ?_ ?_]
      · simp
      · intro k hk
        rcases List.mem_map.mp hk with ⟨q, hq, hq1⟩
        rcases List.mem_append.mp hq with hqa | hqs
        · exact fun hkt =>
            hdisj k (List.mem_map.mpr ⟨q, hqa, hq1⟩) (by simp [hkt])
        · have : q = (row.1, r) := by simpa using hqs
          subst this
          rw [← hq1]
          rw [List.map_cons] at hnd
          exact (List.nodup_cons.mp hnd).1
      · rw [List.map_cons] at hnd
        exact (List.nodup_cons.mp hnd).2

theorem cacheLoadAll_eq (parse : String → Option MonitorResult) (db : CacheDb)
    (hnd : (db.map Prod.fst).Nodup) :
    (cacheLoadAll parse db).2
      = db.filterMap (fun row => (parse row.2).map (fun r => (row.1, r))) := by
  unfold cacheLoadAll
  rw [cacheLoadAll_go parse db [] (by simp) hnd]
  rfl

/-- C4 amended.  `load` on a corrupt row deletes it and reports absent;
`load_all` returns exactly the rows that deserialize and continues past
corrupt rows, but performs no deletion — corrupt rows stay in the table. -/
theorem c4_cache_self_healing_amended (parse : String → Option MonitorResult)
    (db : CacheDb) (hnd : (db.map Prod.fst).Nodup) (sid blob : String)
    (hrow : dictGet db sid = some blob) (hbad : parse blob = none) :
    cacheLoad parse db sid = ((cacheDelete db sid).1, none) ∧
    (cacheLoadAll parse db).1 = db ∧
    (∀ r, (sid, r) ∉ (cacheLoadAll parse db).2) ∧
    (∀ p ∈ db, ∀ r, parse p.2 = some r → (p.1, r) ∈ (cacheLoadAll parse db).2) := by
  refine ⟨?_, rfl, ?_, ?_⟩
  · unfold cacheLoad
    rw [hrow]
    show (match parse blob with
      | some r => (db, some r)
      | none => ((cacheDelete db sid).1, none)) = ((cacheDelete db sid).1, none)
    rw [hbad]
  · intro r hmem
    rw [cacheLoadAll_eq parse db hnd] at hmem
    obtain ⟨row, hrowmem, hfr⟩ := List.mem_filterMap.mp hmem
    cases hpr : parse row.2 with
    | none => rw [hpr] at hfr; simp at hfr
    | some r'' =>
      rw [hpr] at hfr
      simp only [Option.map_some', Option.some.injEq, Prod.mk.injEq] at hfr
      obtain ⟨h1, _⟩ := hfr
      have hg := dictGet_of_mem db row hnd hrowmem
      rw [h1, hrow] at hg
      have : blob = row.2 := by injection hg
      rw [← this] at hpr
      rw [hbad] at hpr
      exact Option.noConfusion hpr
  · intro p hp r hpr
    rw [cacheLoadAll_eq parse db hnd]
    exact List.mem_filterMap.mpr ⟨p, hp, by simp [hpr]⟩

/-- Witness for C4 amended on a one-row table whose blob fails to parse. -/
theorem c4_cache_self_healing_amended_witness :
    cacheLoad (fun _ => none) [("s", "bad")] "s"
      = ((cacheDelete [("s", "bad")] "s").1, none) ∧
    (cacheLoadAll (fun _ => none) [("s", "bad")]).1 = [("s", "bad")] ∧
    (∀ r, ("s", r) ∉ (cacheLoadAll (fun _ => none) [("s", "bad")]).2) := by
  have h := c4_cache_self_healing_amended (fun _ => none) [("s", "bad")]
    (by decide) "s" "bad" rfl rfl
  exact ⟨h.1, h.2.1, h.2.2.1⟩

/-! ### C6: vault error absorption -/

/-- Counterexample to C6 as stated: a chunk-count sentinel holding the
non-decimal string `"abc"` makes both `get_credential` and
`delete_credential` propagate a `ValueError` (`int("abc")` is outside
every `except KeyringError` handler). -/
theorem c6_counterexample :
    get_credential [(chunksKey (make_key "s" "f"), "abc")] "s" "f"
      = .error PyErr.valueError ∧
    delete_credential [(chunksKey (make_key "s" "f"), "abc")] "s" "f"
      = .error PyErr.valueError :=
  ⟨rfl, rfl⟩

theorem Vault.get_del (v : Vault) (k q : String) :
    (v.del k).get q = if q = k then none else v.get q := by
  induction v with
  | nil => by_cases h : q = k <;> simp [Vault.del, Vault.get, h]
  | cons p t ih =>
    simp only [Vault.del, Vault.get] at ih ⊢
    rw [List.filter_cons]
    by_cases hpk : p.1 = k
    · have hd : (decide ¬ p.1 = k) = false := by simp [hpk]
      rw [hd]
      simp only [Bool.false_eq_true, if_false]
      rw [ih]
      by_cases hq : q = k
      · simp [hq]
      · simp only [if_neg hq]
        rw [List.find?_cons]
        have : (decide (p.1 = q)) = false := by
          simp only [decide_eq_false_iff_not]
          intro hpq
          exact hq (by rw [← hpq, hpk])
        rw [this]
    · have hd : (decide ¬ p.1 = k) = true := by simp [hpk]
      rw [hd]
      simp only [if_true]
      rw [List.find?_cons, List.find?_cons]
      by_cases hpq : p.1 = q
      · have : (decide (p.1 = q)) = true := by simp [hpq]
        rw [this]
        have hq : ¬ q = k := by rw [← hpq]; exact hpk
        simp [hq]
      · have : (decide (p.1 = q)) = false := by simp [hpq]
        rw [this]
        exact ih

theorem Filtrate.refl (v : Vault) : Filtrate v v := fun _ => Or.inl rfl

theorem Filtrate.trans {a b c : Vault} (h1 : Filtrate a b) (h2 : Filtrate b c) :
    Filtrate a c := by
  intro k
  rcases h1 k with h | h
  · rw [h]; exact h2 k
  · exact Or.inr h

theorem Filtrate.del {a b : Vault} (h : Filtrate a b) (k : String) :
    Filtrate (a.del k) b := by
  intro q
  rw [Vault.get_del]
  by_cases hq : q = k
  · simp [hq]
  · simp only [if_neg hq]
    exact h q

theorem Filtrate.foldl_del {b : Vault} (f : Nat → String) (l : List Nat) :
    ∀ {a : Vault}, Filtrate a b →
      Filtrate (l.foldl (fun acc i => acc.del (f i)) a) b := by
  induction l with
  | nil => intro a h; exact h
  | cons i t ih =>
    intro a h
    rw [List.foldl_cons]
    exact ih (h.del (f i))

theorem filtrate_delete_chunked (v : Vault) (key : String) (n : Int) :
    Filtrate (_delete_chunked_credential v key n) v := by
  unfold _delete_chunked_credential
  exact Filtrate.del (Filtrate.foldl_del _ _ (Filtrate.refl v)) _

theorem sentinelOk_of_filtrate {v' v : Vault} (key : String)
    (hok : sentinelOk v key = true) (hf : Filtrate v' v) :
    sentinelOk v' key = true := by
  unfold sentinelOk at hok ⊢
  rcases hf (chunksKey key) with h | h
  · rw [h]; exact hok
  · rw [h]

theorem set_credential_snd (v : Vault) (sid name value : String) :
    (set_credential v sid name value).2 = true := by
  unfold set_credential
  by_cases h : byteLen value > MAX_CREDENTIAL_SIZE
  · simp only [h, if_true]
    rfl
  · simp only [h, if_false]

theorem get_credential_ok (v : Vault) (sid name : String)
    (hok : sentinelOk v (make_key sid name) = true) :
    ∃ res, get_credential v sid name = .ok res := by
  unfold sentinelOk at hok
  simp only [get_credential]
  cases hcc : v.get (chunksKey (make_key sid name)) with
  | none =>
    simp only [hcc]
    exact ⟨_, rfl⟩
  | some cc =>
    simp only [hcc] at hok ⊢
    by_cases he : cc = ""
    · rw [if_pos he]
      exact ⟨_, rfl⟩
    · rw [if_neg he]
      cases hpi : pyInt? cc with
      | some n =>
        simp only [hpi]
        exact ⟨_, rfl⟩
      | none =>
        rw [hpi] at hok
        simp [he] at hok

theorem delete_credential_ok (v : Vault) (sid name : String)
    (hok : sentinelOk v (make_key sid name) = true) :
    ∃ v', delete_credential v sid name = .ok (v', true) ∧ Filtrate v' v := by
  unfold sentinelOk at hok
  simp only [delete_credential]
  cases hcc : v.get (chunksKey (make_key sid name)) with
  | none =>
    simp only [hcc]
    exact ⟨_, rfl, Filtrate.del (Filtrate.refl v) _⟩
  | some cc =>
    simp only [hcc] at hok ⊢
    by_cases he : cc = ""
    · rw [if_pos he]
      exact ⟨_, rfl, Filtrate.del (Filtrate.refl v) _⟩
    · rw [if_neg he]
      cases hpi : pyInt? cc with
      | some n =>
        simp only [hpi]
        exact ⟨_, rfl, Filtrate.del (filtrate_delete_chunked v _ n) _⟩
      | none =>
        rw [hpi] at hok
        simp [he] at hok

theorem set_credentials_foldl_snd (sid : String) (creds : List (String × String)) :
    ∀ st : Vault × Bool, st.2 = true →
      (creds.foldl
        (fun st kv =>
          let r := set_credential st.1 sid kv.1 kv.2
          (r.1, st.2 && r.2)) st).2 = true := by
  induction creds with
  | nil => intro st h; exact h
  | cons kv t ih =>
    intro st h
    rw [List.foldl_cons]
    exact ih _ (by simp [h, set_credential_snd])

theorem get_credentials_ok (v : Vault) (sid : String) (names : List String)
    (hok : ∀ name ∈ names, sentinelOk v (make_key sid name) = true) :
    ∃ res, get_credentials v sid names = .ok res := by
  unfold get_credentials
  suffices h : ∀ (ns : List String) (acc : List (String × String)),
      (∀ name ∈ ns, sentinelOk v (make_key sid name) = true) →
      ∃ res, ns.foldlM
        (fun acc name => do
          match (← get_credential v sid name) with
          | some value => pure (acc ++ [(name, value)])
          | none => pure acc)
        acc = .ok res by
    exact h names [] hok
  intro ns
  induction ns with
  | nil => intro acc _; exact ⟨acc, rfl⟩
  | cons name t ih =>
    intro acc hns
    obtain ⟨res1, h1⟩ := get_credential_ok v sid name (hns name (by simp))
    rw [List.foldlM_cons]
    rw [h1]
    show ∃ res, (match res1 with
      | some value => pure (acc ++ [(name, value)])
      | none => pure acc : Except PyErr _) >>= _ = .ok res
    cases res1 with
    | none => exact ih acc (fun nm hm => hns nm (by simp [hm]))
    | some value => exact ih (acc ++ [(name, value)]) (fun nm hm => hns nm (by simp [hm]))

theorem has_credentials_ok (v : Vault) (sid : String) (names : List String)
    (hok : ∀ name ∈ names, sentinelOk v (make_key sid name) = true) :
    ∃ res, has_credentials v sid names = .ok res := by
  induction names with
  | nil => exact ⟨true, rfl⟩
  | cons name t ih =>
    obtain ⟨res1, h1⟩ := get_credential_ok v sid name (hok name (by simp))
    unfold has_credentials
    rw [h1]
    cases res1 with
    | none => exact ⟨false, rfl⟩
    | some value =>
      obtain ⟨res, hres⟩ := ih (fun nm hm => hok nm (by simp [hm]))
      exact ⟨res, by simpa using hres⟩

theorem delete_all_credentials_ok (v : Vault) (sid : String) (names : List String)
    (hok : ∀ name ∈ names, sentinelOk v (make_key sid name) = true) :
    ∃ v', delete_all_credentials v sid names = .ok (v', true) := by
  unfold delete_all_credentials
  suffices h : ∀ (ns : List String) (v' : Vault), Filtrate v' v →
      (∀ name ∈ ns, sentinelOk v (make_key sid name) = true) →
      ∃ v'', ns.foldlM
        (fun st name => do
          let r ← delete_credential st.1 sid name
          pure (r.1, st.2 && r.2))
        ((v', true) : Vault × Bool) = .ok (v'', true) by
    exact h names v (Filtrate.refl v) hok
  intro ns
  induction ns with
  | nil => intro v' _ _; exact ⟨v', rfl⟩
  | cons name t ih =>
    intro v' hfil hns
    have hok' : sentinelOk v' (make_key sid name) = true :=
      sentinelOk_of_filtrate _ (hns name (by simp)) hfil
    obtain ⟨v2, h2, hfil2⟩ := delete_credential_ok v' sid name hok'
    rw [List.foldlM_cons, h2]
    show ∃ v'', (pure (v2, true && true) : Except PyErr (Vault × Bool)) >>= _ = _
    exact ih v2 (hfil2.trans hfil) (fun nm hm => hns nm (by simp [hm]))

/-- C6 amended.  With a healthy platform vault, every credential-store
operation returns a plain boolean/absent result — `KeyringError` never
crosses the boundary — provided every chunk-count sentinel consulted is
empty, absent, or a valid integer literal.  A sentinel holding any other
string makes `get_credential`/`delete_credential` (and the batch
operations over them) raise an uncaught `ValueError`. -/
theorem c6_vault_error_absorption_amended (v : Vault) (sid : String) :
    (∀ name value, ∃ v', set_credential v sid name value = (v', true)) ∧
    (∀ creds, ∃ v', set_credentials v sid creds = (v', true)) ∧
    (∀ name, sentinelOk v (make_key sid name) = true →
      ∃ res, get_credential v sid name = .ok res) ∧
    (∀ name, sentinelOk v (make_key sid name) = true →
      ∃ v', delete_credential v sid name = .ok (v', true)) ∧
    (∀ names, (∀ name ∈ names, sentinelOk v (make_key sid name) = true) →
      ∃ res, get_credentials v sid names = .ok res) ∧
    (∀ names, (∀ name ∈ names, sentinelOk v (make_key sid name) = true) →
      ∃ res, has_credentials v sid names = .ok res) ∧
    (∀ names, (∀ name ∈ names, sentinelOk v (make_key sid name) = true) →
      ∃ v', delete_all_credentials v sid names = .ok (v', true)) := by
  refine ⟨?_, ?_, ?_, ?_, ?_, ?_, ?_⟩
  · intro name value
    refine ⟨(set_credential v sid name value).1, ?_⟩
    rw [← set_credential_snd v sid name value]
  · intro creds
    refine ⟨(set_credentials v sid creds).1, ?_⟩
    have hsnd : (set_credentials v sid creds).2 = true :=
      set_credentials_foldl_snd sid creds (v, true) rfl
    calc set_credentials v sid creds
        = ((set_credentials v sid creds).1, (set_credentials v sid creds).2) := rfl
      _ = ((set_credentials v sid creds).1, true) := by rw [hsnd]
  · intro name hok
    exact get_credential_ok v sid name hok
  · intro name hok
    obtain ⟨v', h, _⟩ := delete_credential_ok v sid name hok
    exact ⟨v', h⟩
  · intro names hok
    exact get_credentials_ok v sid names hok
  · intro names hok
    exact has_credentials_ok v sid names hok
  · intro names hok
    exact delete_all_credentials_ok v sid names hok

/-- Witness for C6 amended: a vault with one well-formed sentinel. -/
theorem c6_vault_error_absorption_amended_witness :
    (∃ res, get_credential [(chunksKey (make_key "s" "a"), "2")] "s" "a" = .ok res) ∧
    (∃ v', delete_all_credentials [(chunksKey (make_key "s" "a"), "2")] "s" ["a", "b"]
      = .ok (v', true)) := by
  have h := c6_vault_error_absorption_amended [(chunksKey (make_key "s" "a"), "2")] "s"
  exact ⟨h.2.2.1 "a" (by decide), h.2.2.2.2.2.2 ["a", "b"] (by decide)⟩

/-! ### C5: lifecycle cleanup -/

/-- Counterexample to C5 as stated: `add_service("mock", "m", {"k":"v"})`
succeeds even though `"k"` is not among the provider's
`required_credentials`, and the subsequent `remove_service` (which only
deletes the required fields) leaves the `"k"` credential retrievable. -/
theorem c5_counterexample :
    add_service c5reg c5st0 "mock" "m" [("k", "v")] "T"
      = .ok (c5afterAdd, some "mock_T") ∧
    remove_service c5afterAdd "mock_T"
      = .ok (c5afterRemove, true,
        [RemovalOp.delCred "api_key", RemovalOp.delCache, RemovalOp.delRecord]) ∧
    get_credential c5afterRemove.vault "mock_T" "k" = .ok (some "v") ∧
    ¬ (some "v" = (none : Option String)) := by
  refine ⟨rfl, rfl, rfl, by decide⟩

theorem chunksKey_ne (k : String) : ¬ chunksKey k = k := by
  intro h
  have hlen := congrArg (fun s => s.data.length) h
  simp only [chunksKey] at hlen
  rw [String.data_append] at hlen
  simp at hlen

theorem get_credential_absent (v : Vault) (sid f : String)
    (hs : v.get (chunksKey (make_key sid f)) = none ∨
          v.get (chunksKey (make_key sid f)) = some "")
    (hp : v.get (make_key sid f) = none) :
    get_credential v sid f = .ok none := by
  simp only [get_credential]
  rcases hs with h | h
  · simp [h, hp]
  · simp [h, hp]

theorem delete_credential_effect (v : Vault) (sid f : String) (v' : Vault) (b : Bool)
    (h : delete_credential v sid f = .ok (v', b)) :
    v'.get (make_key sid f) = none ∧
    (v'.get (chunksKey (make_key sid f)) = none ∨
     v'.get (chunksKey (make_key sid f)) = some "") ∧
    Filtrate v' v := by
  simp only [delete_credential] at h
  cases hcc : v.get (chunksKey (make_key sid f)) with
  | none =>
    simp only [hcc, Except.ok.injEq, Prod.mk.injEq] at h
    obtain ⟨h1, _⟩ := h
    subst h1
    refine ⟨?_, ?_, Filtrate.del (Filtrate.refl v) _⟩
    · rw [Vault.get_del, if_pos rfl]
    · left
      rw [Vault.get_del, if_neg (chunksKey_ne _), hcc]
  | some cc =>
    simp only [hcc] at h
    by_cases he : cc = ""
    · rw [if_pos he] at h
      simp only [Except.ok.injEq, Prod.mk.injEq] at h
      obtain ⟨h1, _⟩ := h
      subst h1
      refine ⟨?_, ?_, Filtrate.del (Filtrate.refl v) _⟩
      · rw [Vault.get_del, if_pos rfl]
      · right
        rw [Vault.get_del, if_neg (chunksKey_ne _), hcc, he]
    · rw [if_neg he] at h
      cases hpi : pyInt? cc with
      | none =>
        rw [hpi] at h
        exact Except.noConfusion h
      | some n =>
        rw [hpi] at h
        simp only [Except.ok.injEq, Prod.mk.injEq] at h
        obtain ⟨h1, _⟩ := h
        subst h1
        refine ⟨?_, ?_, Filtrate.del (filtrate_delete_chunked v _ n) _⟩
        · rw [Vault.get_del, if_pos rfl]
        · left
          rw [Vault.get_del, if_neg (chunksKey_ne _)]
          unfold _delete_chunked_credential
          rw [Vault.get_del, if_pos rfl]

theorem delete_all_effect (sid : String) :
    ∀ (names : List String) (st res : Vault × Bool),
    names.foldlM
      (fun st name => do
        let r ← delete_credential st.1 sid name
        pure (r.1, st.2 && r.2))
      st = (.ok res : Except PyErr (Vault × Bool)) →
    (∀ f ∈ names,
      res.1.get (make_key sid f) = none ∧
      (res.1.get (chunksKey (make_key sid f)) = none ∨
       res.1.get (chunksKey (make_key sid f)) = some "")) ∧
    Filtrate res.1 st.1 := by
  intro names
  induction names with
  | nil =>
    intro st res h
    simp only [List.foldlM_nil] at h
    have hst : st = res := by injection h
    rw [← hst]
    exact ⟨by intro f hf; simp at hf, Filtrate.refl st.1⟩
  | cons name t ih =>
    intro st res h
    rw [List.foldlM_cons] at h
    cases hd : delete_credential st.1 sid name with
    | error e =>
      rw [hd] at h
      exact Except.noConfusion h
    | ok r1 =>
      rw [hd] at h
      obtain ⟨hp1, hs1, hfil1⟩ := delete_credential_effect st.1 sid name r1.1 r1.2
        (by rw [hd])
      have h' : t.foldlM
          (fun st name => do
            let r ← delete_credential st.1 sid name
            pure (r.1, st.2 && r.2))
          ((r1.1, st.2 && r1.2) : Vault × Bool) = .ok res := by
        simpa using h
      obtain ⟨hall, hfil2⟩ := ih ((r1.1, st.2 && r1.2)) res h'
      refine ⟨?_, hfil2.trans hfil1⟩
      intro f hf
      rcases List.mem_cons.mp hf with hfn | hft
      · subst hfn
        constructor
        · rcases hfil2 (make_key sid f) with hh | hh
          · rw [hh]; exact hp1
          · exact hh
        · rcases hfil2 (chunksKey (make_key sid f)) with hh | hh
          · rw [hh]; exact hs1
          · left; exact hh
      · exact hall f hft

theorem find?_append_last {α : Type} (p : α → Bool) (l : List α) (x : α)
    (hl : l.find? p = none) (hx : p x = true) :
    (l ++ [x]).find? p = some x := by
  induction l with
  | nil => simp [List.find?_cons, hx]
  | cons a t ih =>
    rw [List.find?_cons] at hl
    cases hpa : p a with
    | true => rw [hpa] at hl; exact Option.noConfusion hl
    | false =>
      rw [hpa] at hl
      rw [List.cons_append, List.find?_cons, hpa]
      exact ih hl

theorem create_instance_inv (reg : Registry) (st : PMState) (cfg : ServiceConfig)
    (entry : String × List String) (st' : PMState) (ok' : Bool)
    (hfind : reg.find? (fun p => p.1 = cfg.plugin_type) = some entry)
    (h : create_instance reg st cfg = .ok (st', ok')) :
    ∃ credsRead, get_credentials st.vault cfg.service_id entry.2 = .ok credsRead ∧
      st' = { st with instances := dictSet st.instances cfg.service_id ⟨cfg.alias, entry.2, credsRead, cfg.enabled⟩ } ∧
      ok' = true := by
  simp only [create_instance, hfind] at h
  cases hgc : get_credentials st.vault cfg.service_id entry.2 with
  | error e =>
    rw [hgc] at h
    exact Except.noConfusion h
  | ok credsRead =>
    rw [hgc] at h
    simp only [Except.ok.injEq, Prod.mk.injEq] at h
    exact ⟨credsRead, rfl, h.1.symm, h.2.symm⟩

theorem add_service_inv (reg : Registry) (st : PMState) (ptype al : String)
    (creds : List (String × String)) (now : String) (entry : String × List String)
    (st1 : PMState) (sid : String)
    (hfind : reg.find? (fun p => p.1 = ptype) = some entry)
    (hfresh : (st.services.find? fun c => c.service_id = genServiceId ptype now) = none)
    (h : add_service reg st ptype al creds now = .ok (st1, some sid)) :
    sid = genServiceId ptype now ∧
    ∃ credsRead,
      st1 = { vault := (set_credentials st.vault (genServiceId ptype now) creds).1,
              services := st.services ++
                [{ service_id := genServiceId ptype now, plugin_type := ptype,
                   «alias» := al, enabled := true, created_at := now,
                   updated_at := now }],
              configCache := st.configCache,
              monitorCache := st.monitorCache,
              instances := dictSet st.instances (genServiceId ptype now)
                ⟨al, entry.2, credsRead, true⟩ } := by
  have hfa := find?_append_last (fun c => decide (c.service_id = genServiceId ptype now))
    st.services
    ({ service_id := genServiceId ptype now, plugin_type := ptype, «alias» := al,
       enabled := true, created_at := now, updated_at := now } : ServiceConfig)
    hfresh (by simp)
  simp only [add_service, hfind, hfresh, Option.isSome_none, Bool.false_eq_true,
    if_false, hfa] at h
  cases hci : create_instance reg
      { vault := (set_credentials st.vault (genServiceId ptype now) creds).1,
        services := st.services ++
          [{ service_id := genServiceId ptype now, plugin_type := ptype,
             «alias» := al, enabled := true, created_at := now, updated_at := now }],
        configCache := st.configCache,
        monitorCache := st.monitorCache,
        instances := st.instances }
      { service_id := genServiceId ptype now, plugin_type := ptype,
        «alias» := al, enabled := true, created_at := now, updated_at := now } with
  | error e =>
    simp only [hci] at h
    exact Except.noConfusion h
  | ok pair =>
    simp only [hci] at h
    obtain ⟨credsRead, hgc, hst, hok⟩ := create_instance_inv reg _ _ entry pair.1 pair.2
      hfind (by rw [← hci])
    rw [hok] at h
    simp only [if_true, Except.ok.injEq, Prod.mk.injEq, Option.some.injEq] at h
    refine ⟨h.2.symm, credsRead, ?_⟩
    rw [← h.1, hst]

/-- C5 amended.  Whenever `add_service` succeeds from a pristine state
and `remove_service` on the returned id succeeds, the final state has no
retrievable credential for any of the provider's **required** fields
(supplied fields outside `required_credentials` may survive — see the
counterexample), zero ServiceRecord, zero live instance, zero config
cache row, an untouched monitor-result cache, and the deletion trace
performs the credential and cache deletions strictly before the
ServiceRecord deletion. -/
theorem c5_lifecycle_cleanup_amended (reg : Registry) (ptype al : String)
    (required : List String) (creds : List (String × String)) (now : String)
    (mc : CacheDb) (st1 stF : PMState) (sid : String) (ok : Bool)
    (trace : List RemovalOp)
    (hreg : reg.find? (fun p => p.1 = ptype) = some (ptype, required))
    (hadd : add_service reg
      { vault := [], services := [], configCache := [], monitorCache := mc,
        instances := [] } ptype al creds now = .ok (st1, some sid))
    (hrem : remove_service st1 sid = .ok (stF, ok, trace)) :
    (∀ f ∈ required, get_credential stF.vault sid f = .ok none) ∧
    stF.services = [] ∧ stF.instances = [] ∧ stF.configCache = [] ∧
    stF.monitorCache = mc ∧ ok = true ∧
    trace = required.map RemovalOp.delCred ++
      [RemovalOp.delCache, RemovalOp.delRecord] := by
  obtain ⟨hsid, credsRead, hst1⟩ := add_service_inv reg _ ptype al creds now
    (ptype, required) st1 sid hreg (by simp) hadd
  subst hsid
  subst hst1
  have hg : dictGet (dictSet ([] : List (String × InstMeta)) (genServiceId ptype now)
      ⟨al, (ptype, required).2, credsRead, true⟩) (genServiceId ptype now)
      = some ⟨al, required, credsRead, true⟩ := by
    simp [dictGet, dictSet, List.find?_cons]
  simp only [remove_service, hg] at hrem
  cases hda : delete_all_credentials
      (set_credentials [] (genServiceId ptype now) creds).1
      (genServiceId ptype now) required with
  | error e =>
    simp only [hda] at hrem
    exact Except.noConfusion hrem
  | ok r =>
    simp only [hda] at hrem
    simp [dictSet] at hrem
    obtain ⟨hstF, hok, htrace⟩ := hrem
    obtain ⟨hall, _⟩ := delete_all_effect (genServiceId ptype now) required
      ((set_credentials [] (genServiceId ptype now) creds).1, true) r
      (by unfold delete_all_credentials at hda; exact hda)
    subst hstF
    refine ⟨?_, rfl, rfl, rfl, rfl, hok, htrace.symm⟩
    intro f hf
    exact get_credential_absent r.1 _ f (hall f hf).2 (hall f hf).1

/-- Witness for C5 amended: the concrete run whose supplied field is the
provider's required `api_key` ends in the fully cleaned state. -/
theorem c5_lifecycle_cleanup_amended_witness :
    (∀ f ∈ ["api_key"], get_credential c5wAfterRemove.vault "mock_T" f = .ok none) ∧
    c5wAfterRemove.services = [] ∧ c5wAfterRemove.instances = [] ∧
    c5wAfterRemove.configCache = [] ∧ c5wAfterRemove.monitorCache = [] := by
  have h := c5_lifecycle_cleanup_amended c5reg "mock" "m" ["api_key"]
    [("api_key", "v")] "T" [] c5wAfterAdd c5wAfterRemove "mock_T" true
    [RemovalOp.delCred "api_key", RemovalOp.delCache, RemovalOp.delRecord]
    rfl rfl rfl
  exact ⟨h.1, h.2.1, h.2.2.1, h.2.2.2.1, h.2.2.2.2.1⟩

/-! ### Decimal printer / Python `int()` parser round trip -/

theorem natDigitsLEFuel_irrel : ∀ (f1 : Nat), ∀ {f2 n : Nat}, n ≤ f1 → n ≤ f2 →
    natDigitsLEFuel f1 n = natDigitsLEFuel f2 n := by
  intro f1
  induction f1 with
  | zero =>
    intro f2 n h1 _
    have hn : n = 0 := Nat.le_zero.mp h1
    subst hn
    cases f2 with
    | zero => rfl
    | succ f2' => simp [natDigitsLEFuel]
  | succ f1' ih =>
    intro f2 n h1 h2
    cases f2 with
    | zero =>
      have hn : n = 0 := Nat.le_zero.mp h2
      subst hn
      simp [natDigitsLEFuel]
    | succ f2' =>
      simp only [natDigitsLEFuel]
      by_cases hn : n < 10
      · simp [hn]
      · simp only [hn, if_false]
        have hd : n / 10 ≤ f1' := by
          have : n / 10 < n := Nat.div_lt_self (by omega) (by omega)
          omega
        have hd2 : n / 10 ≤ f2' := by
          have : n / 10 < n := Nat.div_lt_self (by omega) (by omega)
          omega
        rw [ih hd hd2]

theorem natDigitsLE_eq (n : Nat) :
    natDigitsLE n = if n < 10 then [n] else n % 10 :: natDigitsLE (n / 10) := by
  unfold natDigitsLE
  cases n with
  | zero => simp [natDigitsLEFuel]
  | succ m =>
    simp only [natDigitsLEFuel]
    by_cases hn : m + 1 < 10
    · simp [hn]
    · simp only [hn, if_false]
      have hd : (m + 1) / 10 ≤ m := by
        have : (m + 1) / 10 < m + 1 := Nat.div_lt_self (by omega) (by omega)
        omega
      rw [natDigitsLEFuel_irrel m hd (Nat.le_refl _)]

theorem natDigitsLE_lt10 (n : Nat) : ∀ d ∈ natDigitsLE n, d < 10 := by
  induction n using Nat.strong_induction_on with
  | _ n ih =>
    rw [natDigitsLE_eq]
    by_cases hn : n < 10
    · rw [if_pos hn]
      intro d hd
      simp at hd
      omega
    · rw [if_neg hn]
      intro d hd
      rcases List.mem_cons.mp hd with h | h
      · subst h; exact Nat.mod_lt _ (by omega)
      · exact ih (n / 10) (Nat.div_lt_self (by omega) (by omega)) d h

theorem natDigitsLE_ne_nil (n : Nat) : natDigitsLE n ≠ [] := by
  rw [natDigitsLE_eq]
  by_cases hn : n < 10 <;> simp [hn]

theorem digitVal?_digitChar (d : Nat) (h : d < 10) :
    digitVal? (digitChar d) = some d := by
  interval_cases d <;> rfl

theorem isPySpace_digitChar (d : Nat) (h : d < 10) :
    isPySpace (digitChar d) = false := by
  interval_cases d <;> rfl

theorem digitChar_ne_plus (d : Nat) (h : d < 10) : ¬ digitChar d = '+' := by
  interval_cases d <;> decide

theorem digitChar_ne_minus (d : Nat) (h : d < 10) : ¬ digitChar d = '-' := by
  interval_cases d <;> decide

theorem parseDigitsGo_digits (ds : List Nat) (hd : ∀ d ∈ ds, d < 10) :
    ∀ acc, parseDigitsGo false acc (ds.map digitChar)
      = some (ds.foldl (fun a d => a * 10 + d) acc) := by
  induction ds with
  | nil => intro acc; rfl
  | cons d t ih =>
    intro acc
    rw [List.map_cons, List.foldl_cons]
    unfold parseDigitsGo
    rw [digitVal?_digitChar d (hd d (by simp))]
    exact ih (fun x hx => hd x (by simp [hx])) (acc * 10 + d)

theorem parseDigits_digits (bs : List Nat) (hne : bs ≠ [])
    (hall : ∀ d ∈ bs, d < 10) :
    parseDigits (bs.map digitChar)
      = some (bs.foldl (fun a d => a * 10 + d) 0) := by
  cases bs with
  | nil => exact absurd rfl hne
  | cons d0 ds =>
    rw [List.map_cons, List.foldl_cons]
    unfold parseDigits
    simp only [digitVal?_digitChar d0 (hall d0 (by simp))]
    rw [parseDigitsGo_digits ds (fun x hx => hall x (by simp [hx])) d0]
    simp

theorem foldr_digits_eq (n : Nat) :
    (natDigitsLE n).foldr (fun d a => a * 10 + d) 0 = n := by
  induction n using Nat.strong_induction_on with
  | _ n ih =>
    rw [natDigitsLE_eq]
    by_cases hn : n < 10
    · simp [hn]
    · rw [if_neg hn, List.foldr_cons]
      rw [ih (n / 10) (Nat.div_lt_self (by omega) (by omega))]
      omega

theorem foldl_reverse_digits (n : Nat) :
    (natDigitsLE n).reverse.foldl (fun a d => a * 10 + d) 0 = n := by
  rw [List.foldl_reverse]
  exact foldr_digits_eq n

theorem dropWhile_eq_self_of_all (l : List Char)
    (h : ∀ c ∈ l, isPySpace c = false) :
    l.dropWhile isPySpace = l := by
  cases l with
  | nil => rfl
  | cons c t =>
    rw [List.dropWhile_cons, h c (by simp)]
    simp

theorem pyStrOfNat_ne_empty (n : Nat) : ¬ pyStrOfNat n = "" := by
  intro h
  have hd := congrArg String.data h
  simp only [pyStrOfNat] at hd
  have : (natDigitsLE n).reverse.map digitChar = [] := hd
  simp at this
  exact natDigitsLE_ne_nil n this

theorem pyInt?_of_digits (s : String) (bs : List Nat) (hne : bs ≠ [])
    (hall : ∀ d ∈ bs, d < 10) (hdata : s.data = bs.map digitChar) :
    pyInt? s = some ((bs.foldl (fun a d => a * 10 + d) 0 : Nat) : Int) := by
  simp only [pyInt?]
  rw [hdata]
  cases bs with
  | nil => exact absurd rfl hne
  | cons d0 ds =>
    have hnospace : ∀ c ∈ (d0 :: ds).map digitChar, isPySpace c = false := by
      intro c hc
      obtain ⟨d, hdm, hdc⟩ := List.mem_map.mp hc
      rw [← hdc]
      exact isPySpace_digitChar d (hall d hdm)
    rw [dropWhile_eq_self_of_all _ hnospace]
    rw [dropWhile_eq_self_of_all _ (fun c hc =>
      hnospace c (List.mem_reverse.mp hc))]
    rw [List.reverse_reverse, List.map_cons]
    show (if digitChar d0 = '+'
        then (parseDigits (ds.map digitChar)).map Int.ofNat
        else if digitChar d0 = '-'
        then (parseDigits (ds.map digitChar)).map (fun n => -(n : Int))
        else (parseDigits (digitChar d0 :: ds.map digitChar)).map Int.ofNat)
      = some ((((d0 :: ds).foldl (fun a d => a * 10 + d) 0 : Nat)) : Int)
    rw [if_neg (digitChar_ne_plus d0 (hall d0 (by simp))),
        if_neg (digitChar_ne_minus d0 (hall d0 (by simp)))]
    rw [← List.map_cons, parseDigits_digits (d0 :: ds) (by simp) hall]
    rfl

theorem pyInt?_pyStrOfNat (n : Nat) : pyInt? (pyStrOfNat n) = some (n : Int) := by
  rw [pyInt?_of_digits (pyStrOfNat n) (natDigitsLE n).reverse
    (by simp [natDigitsLE_ne_nil n])
    (fun d hdm => natDigitsLE_lt10 n d (List.mem_reverse.mp hdm))
    rfl]
  rw [foldl_reverse_digits n]

theorem pyStrOfNat_inj {m n : Nat} (h : pyStrOfNat m = pyStrOfNat n) : m = n := by
  have h1 := pyInt?_pyStrOfNat m
  rw [h, pyInt?_pyStrOfNat n] at h1
  simpa using h1.symm

/-! ### Chunk-key disjointness and the written chunk layout -/

theorem pyStrOfNat_len_pos (n : Nat) : 0 < (pyStrOfNat n).data.length := by
  show 0 < ((natDigitsLE n).reverse.map digitChar).length
  simp only [List.length_map, List.length_reverse]
  exact List.length_pos.mpr (natDigitsLE_ne_nil n)

theorem key_ne_chunkKey (k : String) (i : Nat) : ¬ k = chunkKey k i := by
  intro h
  have hlen := congrArg (fun s => s.data.length) h
  simp only [chunkKey] at hlen
  rw [String.data_append, String.data_append] at hlen
  simp only [List.length_append] at hlen
  have := pyStrOfNat_len_pos i
  omega

theorem chunksKey_ne_chunkKey (k : String) (i : Nat) :
    ¬ chunksKey k = chunkKey k i := by
  intro h
  have hlen := congrArg (fun s => s.data.length) h
  simp only [chunksKey, chunkKey] at hlen
  rw [String.data_append, String.data_append, String.data_append] at hlen
  simp only [List.length_append] at hlen
  have h7 : (":chunks" : String).data.length = 7 := rfl
  have h7b : (":chunk:" : String).data.length = 7 := rfl
  rw [h7, h7b] at hlen
  have := pyStrOfNat_len_pos i
  omega

theorem chunkKey_inj (k : String) {i j : Nat} (h : chunkKey k i = chunkKey k j) :
    i = j := by
  have hd := congrArg String.data h
  simp only [chunkKey] at hd
  rw [String.data_append, String.data_append, String.data_append,
    String.data_append] at hd
  rw [List.append_assoc, List.append_assoc] at hd
  have h1 := List.append_cancel_left hd
  have h2 := List.append_cancel_left h1
  exact pyStrOfNat_inj (String.ext h2)

theorem Vault.get_set_self (v : Vault) (k val : String) :
    (v.set k val).get k = some val := by
  unfold Vault.set Vault.get
  rw [List.find?_cons_of_pos _ (by simp)]
  rfl

theorem Vault.get_set_ne (v : Vault) (k val q : String) (h : ¬ q = k) :
    (v.set k val).get q = v.get q := by
  show Vault.get ((k, val) :: Vault.del v k) q = v.get q
  unfold Vault.get
  rw [List.find?_cons_of_neg _ (by simp; intro hh; exact h hh.symm)]
  have hdel := Vault.get_del v k q
  rw [if_neg h] at hdel
  exact hdel

theorem write_chunks_get_other (key : String) (cs : List String) :
    ∀ (k : Nat) (v : Vault) (q : String),
    (∀ j, j < cs.length → ¬ q = chunkKey key (k + j)) →
    ((List.enumFrom k cs).foldl (fun acc p => acc.set (chunkKey key p.1) p.2) v).get q
      = v.get q := by
  induction cs with
  | nil => intro k v q _; rfl
  | cons c t ih =>
    intro k v q h
    show ((List.enumFrom (k + 1) t).foldl
      (fun acc p => acc.set (chunkKey key p.1) p.2)
      (v.set (chunkKey key k) c)).get q = v.get q
    rw [ih (k + 1) _ q ?_]
    · exact Vault.get_set_ne v (chunkKey key k) c q
        (by have := h 0 (by simp); simpa using this)
    · intro j hj
      have := h (j + 1) (by rw [List.length_cons]; omega)
      rw [show k + 1 + j = k + (j + 1) by omega]
      exact this

theorem write_chunks_get_at (key : String) (cs : List String) :
    ∀ (k i : Nat) (v : Vault) (hi : i < cs.length),
    ((List.enumFrom k cs).foldl (fun acc p => acc.set (chunkKey key p.1) p.2) v).get
      (chunkKey key (k + i)) = some (cs.get ⟨i, hi⟩) := by
  induction cs with
  | nil => intro k i v hi; simp at hi
  | cons c t ih =>
    intro k i v hi
    show ((List.enumFrom (k + 1) t).foldl
      (fun acc p => acc.set (chunkKey key p.1) p.2)
      (v.set (chunkKey key k) c)).get (chunkKey key (k + i)) = _
    cases i with
    | zero =>
      rw [write_chunks_get_other key t (k + 1) _ _ ?_]
      · rw [Nat.add_zero]
        exact Vault.get_set_self v _ c
      · intro j _ heq
        have := chunkKey_inj key heq
        omega
    | succ i' =>
      rw [show k + (i' + 1) = (k + 1) + i' by omega]
      exact ih (k + 1) i' _ (by simpa using hi)

theorem collectChunks_all (v : Vault) (key : String) (cs : List String) :
    ∀ (k : Nat),
    (∀ (i : Nat) (hi : i < cs.length),
      v.get (chunkKey key (k + i)) = some (cs.get ⟨i, hi⟩)) →
    collectChunks v key (List.range' k cs.length) = some cs := by
  induction cs with
  | nil => intro k _; rfl
  | cons c t ih =>
    intro k h
    show collectChunks v key (k :: List.range' (k + 1) t.length) = some (c :: t)
    unfold collectChunks
    have h0 : v.get (chunkKey key k) = some c := by
      have := h 0 (by simp)
      simpa using this
    simp only [h0]
    rw [ih (k + 1) ?_]
    · rfl
    · intro i hi
      have := h (i + 1) (by rw [List.length_cons]; omega)
      rw [show k + 1 + i = k + (i + 1) by omega]
      exact this

theorem set_chunked_layout (v : Vault) (key long : String) :
    ((_set_chunked_credential v key long).1.get (chunksKey key)
      = some (pyStrOfNat (chunksOf long).length)) ∧
    (∀ (i : Nat) (hi : i < (chunksOf long).length),
      (_set_chunked_credential v key long).1.get (chunkKey key i)
        = some ((chunksOf long).get ⟨i, hi⟩)) ∧
    (∀ q, ¬ q = chunksKey key → (∀ i, ¬ q = chunkKey key i) →
      (_set_chunked_credential v key long).1.get q = v.get q) := by
  have hshape : (_set_chunked_credential v key long).1
      = (List.enumFrom 0 (chunksOf long)).foldl
          (fun acc p => acc.set (chunkKey key p.1) p.2)
          (v.set (chunksKey key) (pyStrOfNat (chunksOf long).length)) := rfl
  refine ⟨?_, ?_, ?_⟩
  · rw [hshape]
    rw [write_chunks_get_other key (chunksOf long) 0 _ _
      (fun j _ => chunksKey_ne_chunkKey key (0 + j))]
    exact Vault.get_set_self v _ _
  · intro i hi
    rw [hshape]
    have := write_chunks_get_at key (chunksOf long) 0 i
      (v.set (chunksKey key) (pyStrOfNat (chunksOf long).length)) hi
    rw [Nat.zero_add] at this
    exact this
  · intro q hq1 hq2
    rw [hshape]
    rw [write_chunks_get_other key (chunksOf long) 0 _ _ (fun j _ => hq2 (0 + j))]
    exact Vault.get_set_ne v _ _ q hq1

theorem chunksOf_ne_nil (long : String) (hlong : MAX_CREDENTIAL_SIZE < byteLen long) :
    chunksOf long ≠ [] := by
  unfold chunksOf
  intro h
  simp only [List.map_eq_nil_iff] at h
  unfold chunkList at h
  have hne : utf8Encode long ≠ [] := by
    intro hnil
    unfold byteLen at hlong
    rw [hnil] at hlong
    simp [MAX_CREDENTIAL_SIZE] at hlong
  rw [dif_neg (by simp [hne, MAX_CREDENTIAL_SIZE])] at h
  exact List.noConfusion h

theorem get_credential_of_chunk_layout (v : Vault) (sid f long : String)
    (hlong : MAX_CREDENTIAL_SIZE < byteLen long)
    (ha : v.get (chunksKey (make_key sid f))
      = some (pyStrOfNat (chunksOf long).length))
    (hb : ∀ (i : Nat) (hi : i < (chunksOf long).length),
      v.get (chunkKey (make_key sid f) i)
        = some ((chunksOf long).get ⟨i, hi⟩)) :
    get_credential v sid f = .ok (some (chunkedReassembly long)) := by
  simp only [get_credential, ha, if_neg (pyStrOfNat_ne_empty (chunksOf long).length),
    pyInt?_pyStrOfNat]
  unfold _get_chunked_credential
  rw [Int.toNat_ofNat, List.range_eq_range']
  rw [collectChunks_all v (make_key sid f) (chunksOf long) 0
    (fun i hi => by rw [Nat.zero_add]; exact hb i hi)]
  rfl

theorem get_after_chunked_set (v0 : Vault) (sid f long : String)
    (hlong : MAX_CREDENTIAL_SIZE < byteLen long) :
    get_credential (set_credential v0 sid f long).1 sid f
      = .ok (some (chunkedReassembly long)) := by
  have hset : (set_credential v0 sid f long).1
      = (_set_chunked_credential v0 (make_key sid f) long).1 := by
    unfold set_credential
    rw [if_pos hlong]
  rw [hset]
  obtain ⟨ha, hb, _⟩ := set_chunked_layout v0 (make_key sid f) long
  exact get_credential_of_chunk_layout _ sid f long hlong ha hb

theorem get_after_chunked_then_short (v0 : Vault) (sid f long short : String)
    (hlong : MAX_CREDENTIAL_SIZE < byteLen long)
    (hshort : byteLen short ≤ MAX_CREDENTIAL_SIZE) :
    get_credential
      (set_credential (set_credential v0 sid f long).1 sid f short).1 sid f
      = .ok (some (chunkedReassembly long)) := by
  have hset1 : (set_credential v0 sid f long).1
      = (_set_chunked_credential v0 (make_key sid f) long).1 := by
    unfold set_credential
    rw [if_pos hlong]
  have hset2 : (set_credential (set_credential v0 sid f long).1 sid f short).1
      = ((set_credential v0 sid f long).1).set (make_key sid f) short := by
    unfold set_credential
    rw [if_neg (by omega)]
  rw [hset2, hset1]
  obtain ⟨ha, hb, _⟩ := set_chunked_layout v0 (make_key sid f) long
  apply get_credential_of_chunk_layout _ sid f long hlong
  · rw [Vault.get_set_ne _ _ _ _ (chunksKey_ne (make_key sid f))]
    exact ha
  · intro i hi
    rw [Vault.get_set_ne _ _ _ _ (fun h => key_ne_chunkKey (make_key sid f) i h.symm)]
    exact hb i hi

/-! ### Concrete chunk computations for the C1/C3 inputs -/

theorem flatten_replicate_singleton {α : Type} (n : Nat) (x : α) :
    (List.replicate n [x]).flatten = List.replicate n x := by
  induction n with
  | zero => rfl
  | succ m ih => simp [List.replicate_succ, ih]

theorem utf8Encode_append (l1 l2 : List Char) :
    utf8Encode ⟨l1 ++ l2⟩ = utf8Encode ⟨l1⟩ ++ utf8Encode ⟨l2⟩ := by
  show (List.map encodeChar (l1 ++ l2)).flatten = _
  rw [List.map_append, List.flatten_append]
  rfl

theorem utf8Encode_replicate_a (n : Nat) :
    utf8Encode ⟨List.replicate n 'a'⟩ = List.replicate n 97 := by
  show (List.map encodeChar (List.replicate n 'a')).flatten = _
  rw [List.map_replicate]
  rw [show encodeChar 'a' = [97] from rfl]
  exact flatten_replicate_singleton n 97

theorem decode_cons_ascii (tail : List UInt8) :
    utf8DecodeReplace (97 :: tail) = 'a' :: utf8DecodeReplace tail := by
  conv_lhs => rw [utf8DecodeReplace.eq_def]
  exact if_pos (by decide)

theorem decode_replicate_a (n : Nat) (r : List UInt8) :
    utf8DecodeReplace (List.replicate n 97 ++ r)
      = List.replicate n 'a' ++ utf8DecodeReplace r := by
  induction n with
  | zero => rfl
  | succ m ih =>
    rw [List.replicate_succ, List.cons_append, decode_cons_ascii, ih]
    rfl

theorem chunkList_nil_iff (size : Nat) : chunkList size [] = [] := by
  rw [chunkList]
  simp

theorem byteLen_c1val : byteLen c1val = 2001 := by
  show (utf8Encode ⟨List.replicate 1999 'a' ++ [Char.ofNat 0xA2]⟩).length = 2001
  rw [utf8Encode_append, utf8Encode_replicate_a]
  rw [show utf8Encode ⟨[Char.ofNat 0xA2]⟩ = [0xC2, 0xA2] from rfl]
  rw [List.length_append, List.length_replicate]
  rfl

theorem chunkList_c1 :
    chunkList MAX_CREDENTIAL_SIZE (List.replicate 1999 97 ++ [0xC2, 0xA2])
      = [List.replicate 1999 97 ++ [0xC2], [0xA2]] := by
  rw [chunkList]
  rw [dif_neg (by
    rintro (h | h)
    · have h2 := congrArg List.length h
      rw [List.length_append, List.length_replicate] at h2
      exact absurd h2 (by decide)
    · exact absurd h (by decide))]
  have htake : (List.replicate 1999 (97 : UInt8) ++ [0xC2, 0xA2]).take
      MAX_CREDENTIAL_SIZE = List.replicate 1999 97 ++ [0xC2] := by
    rw [List.take_append_eq_append_take,
      List.take_of_length_le (by rw [List.length_replicate]; decide),
      List.length_replicate]
    rfl
  have hdrop : (List.replicate 1999 (97 : UInt8) ++ [0xC2, 0xA2]).drop
      MAX_CREDENTIAL_SIZE = [0xA2] := by
    rw [List.drop_append_eq_append_drop,
      List.drop_eq_nil_of_le (by rw [List.length_replicate]; decide),
      List.length_replicate, List.nil_append]
    rfl
  rw [htake, hdrop]
  rw [chunkList]
  rw [dif_neg (by decide)]
  rw [show ([0xA2] : List UInt8).take MAX_CREDENTIAL_SIZE = [0xA2] from rfl,
    show ([0xA2] : List UInt8).drop MAX_CREDENTIAL_SIZE = [] from rfl,
    chunkList_nil_iff]

theorem chunksOf_c1val :
    chunksOf c1val
      = [⟨List.replicate 1999 'a' ++ [replChar]⟩, ⟨[replChar]⟩] := by
  unfold chunksOf
  rw [show utf8Encode c1val = List.replicate 1999 97 ++ [0xC2, 0xA2] from by
    show utf8Encode ⟨List.replicate 1999 'a' ++ [Char.ofNat 0xA2]⟩ = _
    rw [utf8Encode_append, utf8Encode_replicate_a]
    rfl]
  rw [chunkList_c1]
  simp only [List.map_cons, List.map_nil]
  have h1 : pyDecodeReplace (List.replicate 1999 97 ++ [0xC2])
      = (⟨List.replicate 1999 'a' ++ [replChar]⟩ : String) := by
    unfold pyDecodeReplace
    rw [decode_replicate_a]
    rw [show utf8DecodeReplace [0xC2] = [replChar] from by decide]
  have h2 : pyDecodeReplace [0xA2] = (⟨[replChar]⟩ : String) := by decide
  rw [h1, h2]

theorem reassembly_c1val : chunkedReassembly c1val = c1corrupt := by
  unfold chunkedReassembly
  rw [chunksOf_c1val]
  apply String.ext
  show (("" ++ ⟨List.replicate 1999 'a' ++ [replChar]⟩) ++
    (⟨[replChar]⟩ : String)).data = c1corrupt.data
  rw [String.data_append, String.data_append]
  show [] ++ (List.replicate 1999 'a' ++ [replChar]) ++ [replChar]
    = List.replicate 1999 'a' ++ [replChar, replChar]
  rw [List.nil_append, List.append_assoc]
  rw [show [replChar] ++ [replChar] = [replChar, replChar] from rfl]

/-- C1 evaluated at the failing input: the 2001-byte value `c1val`
(1999 `'a'`s then `'¢'`) exceeds `MAX_CREDENTIAL_SIZE`, yet
`get_credential` after `set_credential` returns the corrupted
`c1corrupt` (the severed `'¢'` became two U+FFFD replacement
characters), not the original value — the chunk round-trip claim fails
for multi-byte UTF-8 values whose codepoints straddle a chunk
boundary. -/
theorem c1_chunk_roundtrip_bug :
    MAX_CREDENTIAL_SIZE < byteLen c1val ∧
    get_credential (set_credential [] "svc" "api_key" c1val).1 "svc" "api_key"
      = .ok (some c1corrupt) ∧
    ¬ c1corrupt = c1val := by
  have hb : MAX_CREDENTIAL_SIZE < byteLen c1val := by
    rw [byteLen_c1val]
    decide
  refine ⟨hb, ?_, ?_⟩
  · rw [get_after_chunked_set [] "svc" "api_key" c1val hb, reassembly_c1val]
  · intro h
    have hlen : (List.replicate 1999 'a' ++ [replChar, replChar]).length
        = (List.replicate 1999 'a' ++ [Char.ofNat 0xA2]).length :=
      congrArg (fun l => l.length) (congrArg String.data h)
    rw [List.length_append, List.length_append, List.length_replicate] at hlen
    exact absurd hlen (by decide)

theorem byteLen_c3long : byteLen c3long = 2001 := by
  show (utf8Encode ⟨List.replicate 2001 'a'⟩).length = 2001
  rw [utf8Encode_replicate_a, List.length_replicate]

theorem chunksOf_c3long :
    chunksOf c3long = [⟨List.replicate 2000 'a'⟩, ⟨List.replicate 1 'a'⟩] := by
  unfold chunksOf
  rw [show utf8Encode c3long = List.replicate 2001 97 from utf8Encode_replicate_a 2001]
  rw [chunkList]
  rw [dif_neg (by
    rintro (h | h)
    · have h2 := congrArg List.length h
      rw [List.length_replicate] at h2
      exact absurd h2 (by decide)
    · exact absurd h (by decide))]
  rw [List.take_replicate, List.drop_replicate]
  rw [show min MAX_CREDENTIAL_SIZE 2001 = 2000 from rfl]
  rw [show 2001 - MAX_CREDENTIAL_SIZE = 1 from rfl]
  rw [chunkList]
  rw [dif_neg (by decide)]
  rw [List.take_replicate, List.drop_replicate]
  rw [show min MAX_CREDENTIAL_SIZE 1 = 1 from rfl]
  rw [show 1 - MAX_CREDENTIAL_SIZE = 0 from rfl]
  rw [show List.replicate 0 (97 : UInt8) = [] from rfl, chunkList_nil_iff]
  simp only [List.map_cons, List.map_nil]
  have h1 : pyDecodeReplace (List.replicate 2000 97)
      = (⟨List.replicate 2000 'a'⟩ : String) := by
    unfold pyDecodeReplace
    rw [show (List.replicate 2000 (97 : UInt8)) = List.replicate 2000 97 ++ []
      from (List.append_nil _).symm]
    rw [decode_replicate_a]
    rw [show utf8DecodeReplace [] = [] from rfl, List.append_nil]
  have h2 : pyDecodeReplace (List.replicate 1 97)
      = (⟨List.replicate 1 'a'⟩ : String) := by decide
  rw [h1, h2]

theorem reassembly_c3long : chunkedReassembly c3long = c3long := by
  unfold chunkedReassembly
  rw [chunksOf_c3long]
  apply String.ext
  show (("" ++ ⟨List.replicate 2000 'a'⟩) ++
    (⟨List.replicate 1 'a'⟩ : String)).data = c3long.data
  rw [String.data_append, String.data_append]
  show [] ++ List.replicate 2000 'a' ++ List.replicate 1 'a'
    = List.replicate 2001 'a'
  rw [List.nil_append, ← List.replicate_add]

/-- Counterexample to C3 as stated: after storing the chunked 2001-byte
`c3long` and then overwriting with `"short"`, `get_credential` still
returns the stale reassembly `c3long`, not the new short value. -/
theorem c3_counterexample :
    get_credential
      (set_credential (set_credential [] "svc" "api_key" c3long).1
        "svc" "api_key" "short").1 "svc" "api_key"
      = .ok (some c3long) ∧
    ¬ c3long = "short" := by
  have hb : MAX_CREDENTIAL_SIZE < byteLen c3long := by
    rw [byteLen_c3long]
    decide
  constructor
  · rw [get_after_chunked_then_short [] "svc" "api_key" c3long "short" hb (by decide),
      reassembly_c3long]
  · intro h
    have hlen : (List.replicate 2001 'a').length = ("short".data).length :=
      congrArg (fun l => l.length) (congrArg String.data h)
    rw [List.length_replicate] at hlen
    exact absurd hlen (by decide)

/-- C3 amended.  Overwriting a chunked credential with a short value
writes the plain entry but leaves the chunk sentinel in place, so a
subsequent `get_credential` returns the reassembly of the OLD chunks —
the stale chunked value — rather than the newly written short value. -/
theorem c3_chunked_overwrite_amended (sid f long short : String)
    (hlong : MAX_CREDENTIAL_SIZE < byteLen long)
    (hshort : byteLen short ≤ MAX_CREDENTIAL_SIZE) :
    get_credential
      (set_credential (set_credential [] sid f long).1 sid f short).1 sid f
      = .ok (some (chunkedReassembly long)) :=
  get_after_chunked_then_short [] sid f long short hlong hshort

/-- Witness for C3 amended at the concrete 2001-byte ASCII value. -/
theorem c3_chunked_overwrite_amended_witness :
    MAX_CREDENTIAL_SIZE < byteLen c3long ∧
    byteLen "short" ≤ MAX_CREDENTIAL_SIZE ∧
    get_credential
      (set_credential (set_credential [] "svc" "api_key" c3long).1
        "svc" "api_key" "short").1 "svc" "api_key"
      = .ok (some (chunkedReassembly c3long)) := by
  have h1 : MAX_CREDENTIAL_SIZE < byteLen c3long := by
    rw [byteLen_c3long]
    decide
  exact ⟨h1, by decide,
    c3_chunked_overwrite_amended "svc" "api_key" c3long "short" h1 (by decide)⟩

end CloudMonitor
